import Mathlib

/-!
# Verification of the doc-analyzer coordinate normalization and zone engine

This development is a shallow embedding of the coordinate-reconciliation,
scale-fix, parsing and extraction logic of the doc-analyzer repository
(`backend/utils.py`, `fix_scaling.py`, `visualizer.py`,
`backend/page_treatment/visualizer.py`, `picture_extractor.py`).

Python numeric conventions used throughout the embedding:
* Python `int` is modelled by `ℤ` (coordinates parsed from text are
  non-negative and cast from `ℕ`).
* On the grid path the single float division `x * image_width / grid_size`
  is fed directly to `int(...)` and is modelled by exact division in `ℚ`:
  at the coordinate magnitudes the program handles (products far below
  2^43) one correctly rounded IEEE double division never crosses an
  integer boundary, so `int` of the float equals `int` of the exact
  rational.
* The heuristic scale factors are floats that get *re-used* in a second
  rounded operation (`int(el['x1'] * x_scale)`), where the intermediate
  rounding is observable (e.g. `int(998 * (1000/998))` is `999`, not
  `1000`).  Those operations are therefore modelled with an explicit IEEE
  binary64 rounding function `fl` (round to nearest, ties to even, 53-bit
  significand): the factor is `fl` of the exact quotient and each product
  is re-rounded with `fl` before `int(...)`.
* Python `int(q)` truncates toward zero; this is `pyInt` below (`⌊q⌋` for
  `q ≥ 0`, `⌈q⌉` for `q < 0`).
-/

/-- Python `int(q)`: truncation toward zero. -/
def pyInt (q : ℚ) : ℤ := if q < 0 then ⌈q⌉ else ⌊q⌋

/-- Round a rational to the nearest integer, ties to even — the rounding
direction IEEE-754 uses in the default mode. -/
def roundHalfEven (q : ℚ) : ℤ :=
  if q - ⌊q⌋ < 1 / 2 then ⌊q⌋
  else if 1 / 2 < q - ⌊q⌋ then ⌊q⌋ + 1
  else if ⌊q⌋ % 2 = 0 then ⌊q⌋ else ⌊q⌋ + 1

/-- IEEE-754 binary64 rounding: the exact rational is scaled into the
53-bit significand range of its binade (`Int.log 2` gives the binade
exponent), rounded to the nearest integer with ties to even, and scaled
back.  Exponent overflow and subnormals are not modelled: every float the
program computes here is a ratio or product of page/coordinate magnitudes,
far inside the normal range. -/
def fl (q : ℚ) : ℚ :=
  if q = 0 then 0
  else if q < 0 then
    -((roundHalfEven (-q * (2 : ℚ) ^ (52 - Int.log 2 (-q))) : ℚ) *
      (2 : ℚ) ^ (Int.log 2 (-q) - 52))
  else
    (roundHalfEven (q * (2 : ℚ) ^ (52 - Int.log 2 q)) : ℚ) *
      (2 : ℚ) ^ (Int.log 2 q - 52)

/-- A detected zone / element dictionary.  `kind` is the Python `type` key
(or picture `id`-less variant); `content` holds `content` / `caption`.
The reconciliation functions copy every other key unchanged (`el.copy()`),
which the record-update embedding reflects. -/
structure Zone where
  kind : String
  x1 : ℤ
  y1 : ℤ
  x2 : ℤ
  y2 : ℤ
  content : String
deriving DecidableEq, Repr, Inhabited

/-- `DEFAULT_GRID_SIZE` from `backend/utils.py`. -/
def DEFAULT_GRID_SIZE : ℕ := 500

/-- Python `max` over a list of ints, first element as base (the sources
only call it on non-empty lists; the `[]` value is never reached behind the
`if not elements` guard). -/
def listMaxZ : List ℤ → ℤ
  | [] => 0
  | x :: xs => xs.foldl max x

/-- `max([el['x2'] for el in elements])`. -/
def maxZX (els : List Zone) : ℤ := listMaxZ (els.map Zone.x2)

/-- `max([el['y2'] for el in elements])`. -/
def maxZY (els : List Zone) : ℤ := listMaxZ (els.map Zone.y2)

/-- `backend/utils.py` `normalize_coordinates` (lines 100-122): per element,
`new_element['x1'] = int(element['x1'] * image_width / grid_size)` and
likewise for the other three coordinates; every other key is copied.
`visualizer.py` lines 439-467 and `picture_extractor.py` lines 112-130 are
the same function. -/
def normalize_coordinates (elements : List Zone) (image_width image_height : ℕ)
    (grid_size : ℕ := DEFAULT_GRID_SIZE) : List Zone :=
  elements.map fun element =>
    { element with
      x1 := pyInt ((element.x1 : ℚ) * image_width / grid_size)
      y1 := pyInt ((element.y1 : ℚ) * image_height / grid_size)
      x2 := pyInt ((element.x2 : ℚ) * image_width / grid_size)
      y2 := pyInt ((element.y2 : ℚ) * image_height / grid_size) }

/-- `backend/utils.py` `calculate_scale_factor` (lines 157-170).  The
divisions are Python float divisions, hence wrapped in `fl`; the
comparisons `max_coord > image_size * 5` and `max_coord > image_size` are
on ints (exact), and the int-against-float comparison
`max_coord < image_size / 5` is exact in Python, so it compares the int
with the rounded quotient. -/
def calculate_scale_factor (max_coord : ℤ) (image_size : ℕ) : ℚ :=
  if max_coord ≤ 0 then 1
  else if (max_coord : ℚ) > (image_size : ℚ) * 5 ∨
      (max_coord : ℚ) < fl ((image_size : ℚ) / 5) then
    fl ((image_size : ℚ) / (max_coord : ℚ))
  else if (max_coord : ℚ) > (image_size : ℚ) then
    min (fl ((image_size : ℚ) / (max_coord : ℚ))) 1
  else
    max (fl ((image_size : ℚ) / (max_coord : ℚ))) (1 / 2)

/-- Scaling application of `backend/utils.py` lines 146-152:
`adjusted_el['x1'] = int(el['x1'] * x_scale)` etc. on a copy of the dict.
The coordinate ints are exactly representable as doubles (far below 2^53),
so the float product is the correctly rounded exact product: `fl` of it. -/
def applyScales (x_scale y_scale : ℚ) (el : Zone) : Zone :=
  { el with
    x1 := pyInt (fl ((el.x1 : ℚ) * x_scale))
    y1 := pyInt (fl ((el.y1 : ℚ) * y_scale))
    x2 := pyInt (fl ((el.x2 : ℚ) * x_scale))
    y2 := pyInt (fl ((el.y2 : ℚ) * y_scale)) }

/-- `backend/utils.py` `auto_adjust_coordinates` (lines 124-155). -/
def auto_adjust_coordinates (elements : List Zone) (image_width image_height : ℕ) :
    List Zone :=
  if elements = [] then elements
  else
    let max_x := maxZX elements
    let max_y := maxZY elements
    if max_x ≤ (DEFAULT_GRID_SIZE : ℤ) ∧ max_y ≤ (DEFAULT_GRID_SIZE : ℤ) then
      normalize_coordinates elements image_width image_height
    else
      let x_scale := calculate_scale_factor max_x image_width
      let y_scale := calculate_scale_factor max_y image_height
      elements.map (applyScales x_scale y_scale)

/-- `backend/utils.py` `validate_coordinates` (lines 210-214). -/
def validate_coordinates (x1 y1 x2 y2 : ℤ) (width height : ℕ) : Prop :=
  (0 ≤ x1 ∧ x1 < x2 ∧ x2 ≤ (width : ℤ)) ∧ (0 ≤ y1 ∧ y1 < y2 ∧ y2 ≤ (height : ℤ))

/-- Modelled from the spec's wording of the heuristic (§4.2, claim C2), for
comparison with `calculate_scale_factor`: the conservative formula
`min(size/max, 1)` / `max(size/max, 0.5)` with the aggressive `size/max`
override whenever `max > size*5` or `max < size/5`.  The quotients named by
the spec are the ones the program computes, i.e. correctly rounded float
divisions, so they are read as `fl` of the exact quotient. -/
def claimScaleFactor (max_coord : ℤ) (image_size : ℕ) : ℚ :=
  if (max_coord : ℚ) > (image_size : ℚ) * 5 ∨
      (max_coord : ℚ) < fl ((image_size : ℚ) / 5) then
    fl ((image_size : ℚ) / (max_coord : ℚ))
  else if (max_coord : ℚ) > (image_size : ℚ) then
    min (fl ((image_size : ℚ) / (max_coord : ℚ))) 1
  else
    max (fl ((image_size : ℚ) / (max_coord : ℚ))) (1 / 2)

/-- The per-coordinate grid rescaling `int(x * size / 500)` (one axis). -/
def gridCoord (x : ℤ) (size : ℕ) : ℤ :=
  pyInt ((x : ℚ) * (size : ℚ) / (DEFAULT_GRID_SIZE : ℕ))

/-- `picture_extractor.py` `extract_and_save_pictures` (lines 183-237):
expand each box by `margin` clamped to the raster (`x1 = max(0, x1-margin)`,
`x2 = min(width, x2+margin)`, same for y), skip the zone with a warning when
`x1 >= x2 or y1 >= y2 or x1 < 0 or y1 < 0 or x2 > width or y2 > height`,
otherwise crop `(x1, y1, x2, y2)`.  Saving to disk, caption side files and
the `max_width` downscale of the cropped raster change only the saved
pixels, never which zones contribute a crop; the output lists each kept
zone with its crop box. -/
def extract_and_save_pictures (image_width image_height : ℕ) (pictures : List Zone)
    (margin : ℤ) : List (Zone × (ℤ × ℤ × ℤ × ℤ)) :=
  pictures.filterMap fun picture =>
    let x1 := max 0 (picture.x1 - margin)
    let y1 := max 0 (picture.y1 - margin)
    let x2 := min (image_width : ℤ) (picture.x2 + margin)
    let y2 := min (image_height : ℤ) (picture.y2 + margin)
    if x1 ≥ x2 ∨ y1 ≥ y2 ∨ x1 < 0 ∨ y1 < 0 ∨
        x2 > (image_width : ℤ) ∨ y2 > (image_height : ℤ) then none
    else some (picture, (x1, y1, x2, y2))

/-! ## A small heap model for zone dictionaries

Python zones are mutable dicts held by reference in a list.  A store is the
list of dict contents; an "address" is an index into it.  An operation that
builds fresh dicts (`el.copy()`) allocates at the end of the store and
leaves existing cells untouched; an operation that assigns into an existing
dict (`zone['x1'] = ...`) overwrites its cell. -/

/-- Read the dict at address `a`. -/
def readS (σ : List Zone) (a : ℕ) : Zone := σ.getD a default

/-- `backend/utils.py` `auto_adjust_coordinates` as a heap operation: the
result list consists of fresh dicts (each built by `el.copy()` or by
`normalize_coordinates`, which also copies), so they are allocated at the
end of the store and the input addresses are never written. -/
def auto_adjust_heap (σ : List Zone) (addrs : List ℕ) (image_width image_height : ℕ) :
    List Zone × List ℕ :=
  let res := auto_adjust_coordinates (addrs.map (readS σ)) image_width image_height
  (σ ++ res, List.range' σ.length res.length)

/-- `visualizer.py` `process_page` lines 572-593: the per-axis heuristic
scales (conservative formula, then the aggressive override rewrites the
variable). -/
def processPageScales (max_x max_y : ℤ) (width height : ℕ) : ℚ × ℚ :=
  let x0 : ℚ :=
    if 0 < max_x then
      (if (width : ℚ) < (max_x : ℚ) then min (fl ((width : ℚ) / (max_x : ℚ))) 1
       else max (fl ((width : ℚ) / (max_x : ℚ))) (1 / 2))
    else 1
  let y0 : ℚ :=
    if 0 < max_y then
      (if (height : ℚ) < (max_y : ℚ) then min (fl ((height : ℚ) / (max_y : ℚ))) 1
       else max (fl ((height : ℚ) / (max_y : ℚ))) (1 / 2))
    else 1
  let xs : ℚ :=
    if (max_x : ℚ) > (width : ℚ) * 5 ∨ (max_x : ℚ) < fl ((width : ℚ) / 5) then
      fl ((width : ℚ) / (max_x : ℚ))
    else x0
  let ys : ℚ :=
    if (max_y : ℚ) > (height : ℚ) * 5 ∨ (max_y : ℚ) < fl ((height : ℚ) / 5) then
      fl ((height : ℚ) / (max_y : ℚ))
    else y0
  (xs, ys)

/-- `visualizer.py` `process_page` lines 595-602: when either scale differs
from `1.0`, the loop assigns `zone['x1'] = int(zone['x1'] * x_scale)` etc.
directly into each zone dict — an in-place overwrite of the input cells
(no `.copy()`), unlike `backend/utils.py`. -/
def process_page_scale_heap (σ : List Zone) (addrs : List ℕ) (x_scale y_scale : ℚ) :
    List Zone :=
  if ¬(x_scale = 1) ∨ ¬(y_scale = 1) then
    addrs.foldl (fun σ' a => σ'.set a (applyScales x_scale y_scale (readS σ' a))) σ
  else σ

/-! ## Character and decimal-number machinery

The scale-fix utility and the parsers work on text.  We model Python
strings as `List Char` (wrapped into `String` at the interfaces) and build
the pieces of the regular expressions used by the sources as explicit
scanners. -/

/-- The decimal digit character for `n < 10`. -/
def digitCh (n : ℕ) : Char := Char.ofNat (48 + n)

/-- Decimal rendering, fuel-structured so that concrete inputs evaluate by
kernel reduction (`fuel > n` always holds at the `natChars` wrapper). -/
def natCharsGo : ℕ → ℕ → List Char
  | 0, _ => []
  | fuel + 1, n =>
    if n < 10 then [digitCh n]
    else natCharsGo fuel (n / 10) ++ [digitCh (n % 10)]

/-- Decimal rendering of a natural number (what Python's string formatting
of a non-negative int produces). -/
def natChars (n : ℕ) : List Char := natCharsGo (n + 1) n

/-- The numeric value of a digit string, as `int(...)` computes it. -/
def digitsVal (ds : List Char) : ℕ :=
  ds.foldl (fun a c => 10 * a + (c.toNat - 48)) 0

/-- Consume the exact pattern `p` from the front of `s`. -/
def dropPre : List Char → List Char → Option (List Char)
  | [], s => some s
  | _ :: _, [] => none
  | p :: ps, c :: cs => if c = p then dropPre ps cs else none

/-- The characters `<loc_`. -/
def locOpen : List Char := ['<', 'l', 'o', 'c', '_']

/-- Match one location marker `<loc_(\d+)>` at the head of `s`; returns the
coordinate value and the rest of the input.  `\d+` is greedy, but being
followed by `>` makes the maximal digit run the only possible match. -/
def matchLoc (s : List Char) : Option (ℕ × List Char) :=
  match dropPre locOpen s with
  | none => none
  | some r =>
    if (r.takeWhile Char.isDigit).isEmpty then none
    else
      match r.dropWhile Char.isDigit with
      | [] => none
      | c :: rest =>
        if c = '>' then some (digitsVal (r.takeWhile Char.isDigit), rest) else none

/-- Match `LOC_PATTERN = <loc_(\d+)><loc_(\d+)><loc_(\d+)><loc_(\d+)>`
(`fix_scaling.py` line 16) at the head of `s`. -/
def matchQuad (s : List Char) : Option ((ℕ × ℕ × ℕ × ℕ) × List Char) :=
  match matchLoc s with
  | none => none
  | some (a, s1) =>
    match matchLoc s1 with
    | none => none
    | some (b, s2) =>
      match matchLoc s2 with
      | none => none
      | some (c, s3) =>
        match matchLoc s3 with
        | none => none
        | some (d, s4) => some ((a, b, c, d), s4)

theorem dropPre_length {p s r : List Char} (h : dropPre p s = some r) :
    r.length + p.length = s.length := by
  induction p generalizing s with
  | nil =>
    unfold dropPre at h
    cases h
    simp
  | cons x xs ih =>
    cases s with
    | nil => simp [dropPre] at h
    | cons c cs =>
      unfold dropPre at h
      by_cases hc : c = x
      · rw [if_pos hc] at h
        have := ih h
        simp at this ⊢
        omega
      · rw [if_neg hc] at h
        cases h

theorem matchLoc_length {s : List Char} {n : ℕ} {r : List Char}
    (h : matchLoc s = some (n, r)) : r.length + 6 ≤ s.length := by
  unfold matchLoc at h
  split at h
  · exact Option.noConfusion h
  rename_i r0 hd
  have hlen : r0.length + 5 = s.length := by
    have := dropPre_length hd
    simpa [locOpen] using this
  split at h
  · exact Option.noConfusion h
  rename_i he
  split at h
  · exact Option.noConfusion h
  rename_i c rest0 hw
  split at h
  · simp only [Option.some.injEq, Prod.mk.injEq] at h
    obtain ⟨-, hr⟩ := h
    subst hr
    have h1 : (r0.takeWhile Char.isDigit).length + (r0.dropWhile Char.isDigit).length
        = r0.length := by
      rw [← List.length_append, List.takeWhile_append_dropWhile]
    rw [hw] at h1
    have h2 : ¬ (r0.takeWhile Char.isDigit).length = 0 := by
      intro hz
      exact he (by simpa [List.isEmpty_iff, List.length_eq_zero] using hz)
    simp at h1
    omega
  · exact Option.noConfusion h

theorem matchQuad_length {s : List Char} {q : ℕ × ℕ × ℕ × ℕ} {r : List Char}
    (h : matchQuad s = some (q, r)) : r.length < s.length := by
  unfold matchQuad at h
  split at h
  · exact Option.noConfusion h
  rename_i a s1 h1
  split at h
  · exact Option.noConfusion h
  rename_i b s2 h2
  split at h
  · exact Option.noConfusion h
  rename_i c s3 h3
  split at h
  · exact Option.noConfusion h
  rename_i d s4 h4
  simp only [Option.some.injEq, Prod.mk.injEq] at h
  obtain ⟨-, hr⟩ := h
  subst hr
  have l1 := matchLoc_length h1
  have l2 := matchLoc_length h2
  have l3 := matchLoc_length h3
  have l4 := matchLoc_length h4
  omega

/-- `re.sub(LOC_PATTERN, f, s)`: scan left to right; at each position try
the quadruple pattern; on a match emit `f` of the groups and continue after
the match (replacements are not rescanned); otherwise keep the character.
Fuel-structured; the scan consumes at least one character per step, so any
`fuel ≥ s.length` computes the full scan (`subQuadsGo_fuel`). -/
def subQuadsGo (f : ℕ × ℕ × ℕ × ℕ → List Char) : ℕ → List Char → List Char
  | _, [] => []
  | 0, s => s
  | fuel + 1, c :: cs =>
    match matchQuad (c :: cs) with
    | some (q, rest) => f q ++ subQuadsGo f fuel rest
    | none => c :: subQuadsGo f fuel cs

/-- `re.sub(LOC_PATTERN, f, s)` over the whole input. -/
def subQuads (f : ℕ × ℕ × ℕ × ℕ → List Char) (s : List Char) : List Char :=
  subQuadsGo f s.length s

/-- Does any suffix of `s` start with a location quadruple?  (`false` means
`re.sub` finds nothing to replace.) -/
def hasQuad : List Char → Bool
  | [] => false
  | c :: cs => (matchQuad (c :: cs)).isSome || hasQuad cs

/-- One location marker `<loc_n>` as text. -/
def locTag (n : ℕ) : List Char := locOpen ++ natChars n ++ ['>']

/-- A location quadruple as text. -/
def quadTag (a b c d : ℕ) : List Char := locTag a ++ locTag b ++ locTag c ++ locTag d

/-- `fix_scaling.py` lines 52-61: `new = int(x * factor) + offset` then
`new = max(0, new)`.  The result is rendered in decimal (it is ≥ 0). -/
def clampScaled (x : ℕ) (factor : ℚ) (off : ℤ) : ℕ :=
  (max 0 (pyInt ((x : ℚ) * factor) + off)).toNat

/-- The replacement callback `apply_scaling` of `fix_scaling.py` lines
48-63: stringify the four rescaled, clamped coordinates back into a
location quadruple. -/
def applyScalingRepl (x_factor y_factor : ℚ) (x_off y_off : ℤ)
    (q : ℕ × ℕ × ℕ × ℕ) : List Char :=
  quadTag (clampScaled q.1 x_factor x_off) (clampScaled q.2.1 y_factor y_off)
    (clampScaled q.2.2.1 x_factor x_off) (clampScaled q.2.2.2 y_factor y_off)

/-- `fix_scaling.py` `fix_scaling` (lines 46-84): rewrite every location
quadruple of the DocTags text via `re.sub(LOC_PATTERN, apply_scaling, s)`. -/
def fix_scaling (x_factor y_factor : ℚ) (x_off y_off : ℤ) (s : String) : String :=
  ⟨subQuads (applyScalingRepl x_factor y_factor x_off y_off) s.data⟩

/-! ## The DocTags parsers

Two parsers are embedded: `parse_doctags` is
`backend/page_treatment/visualizer.py` lines 42-147 (distinct empty /
malformed errors, a fixed tag-type pass, a catch-all pass with duplicate
suppression, and a final `(y1, x1)` sort), and `parse_doctags_viz` is the
root `visualizer.py` lines 110-175 (single error kind, zones emitted in
the order of their opening tags).  Regex scans are embedded as explicit
scanners with the leftmost-match, lazy-quantifier semantics of `re`;
fuel-structured recursion (`fuel = input length`) stands in for
well-founded recursion so concrete runs reduce in the kernel — every
iteration of each scanner consumes at least one character, so the fuel
never runs out on the wrapper's argument. -/

/-- Python `\w` on the tag names used by DocTags (ASCII letters, digits,
underscore; the Unicode extras of `re` never occur in tag names). -/
def isWordChar (c : Char) : Bool := c.isAlphanum || c = '_'

/-- Python `str.strip()`. -/
def pyStrip (s : List Char) : List Char :=
  ((s.dropWhile Char.isWhitespace).reverse.dropWhile Char.isWhitespace).reverse

/-- `not doctags_content.strip()` — the blank-input test. -/
def isBlank (s : String) : Bool := s.data.all Char.isWhitespace

/-- `re.sub(r'<loc_\d+>', '', content)` — strip single location markers. -/
def stripLocsGo : ℕ → List Char → List Char
  | _, [] => []
  | 0, s => s
  | fuel + 1, c :: cs =>
    match matchLoc (c :: cs) with
    | some (_, rest) => stripLocsGo fuel rest
    | none => c :: stripLocsGo fuel cs

/-- Strip all `<loc_N>` markers from a content slice. -/
def stripLocs (s : List Char) : List Char := stripLocsGo s.length s

/-- Leftmost occurrence of the literal `pat`: `some (before, after)` splits
`s` as `before ++ pat ++ after` at the first occurrence. -/
def splitFirst (pat : List Char) : List Char → Option (List Char × List Char)
  | [] => if pat.isPrefixOf [] then some ([], []) else none
  | c :: cs =>
    if pat.isPrefixOf (c :: cs) then some ([], (c :: cs).drop pat.length)
    else (splitFirst pat cs).map (fun p => (c :: p.1, p.2))

/-- First position where a location quadruple matches:
`some (before, groups, after)`. -/
def firstQuad : List Char → Option (List Char × (ℕ × ℕ × ℕ × ℕ) × List Char)
  | [] => none
  | c :: cs =>
    match matchQuad (c :: cs) with
    | some (q, rest) => some ([], q, rest)
    | none =>
      match firstQuad cs with
      | none => none
      | some (pre, q, rest) => some (c :: pre, q, rest)

/-- `re.search(r'<doctag>(.*?)</doctag>', s, re.DOTALL)`: the text between
the first `<doctag>` and the first `</doctag>` after it. -/
def findWrapper (s : List Char) : Option (List Char) :=
  match splitFirst ("<doctag>" : String).data s with
  | none => none
  | some (_, r) =>
    match splitFirst ("</doctag>" : String).data r with
    | none => none
    | some (b, _) => some b

/-- The spec-level reading of "contains a top-level wrapper": the text
decomposes around `<doctag> ... </doctag>`. -/
def hasWrapper (s : List Char) : Prop :=
  ∃ a b c, s = a ++ ("<doctag>" : String).data ++ b ++ ("</doctag>" : String).data ++ c

/-- `<name>`. -/
def openTagOf (t : List Char) : List Char := '<' :: (t ++ ['>'])

/-- `</name>`. -/
def closeTagOf (t : List Char) : List Char := '<' :: '/' :: (t ++ ['>'])

/-- `tag_types` of `backend/page_treatment/visualizer.py` lines 63-68. -/
def tag_types : List String :=
  ["section_header_level_1", "section_header_level_2", "section_header_level_3",
   "text", "picture", "table", "page_header", "page_footer",
   "title", "author", "abstract", "keywords", "paragraph",
   "list_item", "code_block", "footnote", "caption"]

/-- One pass of `re.finditer(rf'<{t}>.*?{LOC_PATTERN}.*?</{t}>', content,
re.DOTALL)` (backend visualizer lines 71-94).  Lazy matching: a match
starting at the first `<t>` uses the first quadruple after it and the first
`</t>` after that quadruple (a match may span several elements when one
lacks a quadruple, exactly as `re` behaves); scanning resumes after the
match.  If no quadruple (resp. no closing tag) follows, no later start can
match either, so the scan ends.  Per match: coordinates from the quadruple,
content = the span between the opening tag and the final closing tag with
`<loc_N>` markers stripped, then `.strip()`. -/
def scanTagGo (t : List Char) : ℕ → List Char → List Zone
  | 0, _ => []
  | fuel + 1, s =>
    match splitFirst (openTagOf t) s with
    | none => []
    | some (_, afterOpen) =>
      match firstQuad afterOpen with
      | none => []
      | some (_, q, afterQuad) =>
        match splitFirst (closeTagOf t) afterQuad with
        | none => []
        | some (_, afterClose) =>
          let A := afterOpen.take (afterOpen.length -
            ((closeTagOf t).length + afterClose.length))
          ⟨⟨t⟩, (q.1 : ℤ), (q.2.1 : ℤ), (q.2.2.1 : ℤ), (q.2.2.2 : ℤ),
            ⟨pyStrip (stripLocs A)⟩⟩ :: scanTagGo t fuel afterClose

/-- All matches of one tag type over the wrapper content. -/
def scanTag (t : String) (s : List Char) : List Zone := scanTagGo t.data s.length s

/-- `re.finditer(r'<(\w+)>.*?' + LOC_PATTERN + r'.*?</\1>', content,
re.DOTALL)` (backend visualizer lines 96-98): at each start position an
opening tag `<w>` (maximal word run followed by `>`), then lazily the first
quadruple after it and the first `</w>` after that.  A start with no
quadruple anywhere after it ends the scan; a start whose close tag is
missing fails and scanning moves one position right; a successful match is
consumed whole.  Yields `(tag name, groups, content span)`. -/
def genScanGo : ℕ → List Char → List (List Char × (ℕ × ℕ × ℕ × ℕ) × List Char)
  | 0, _ => []
  | _ + 1, [] => []
  | fuel + 1, c :: cs =>
    if c = '<' then
      if (cs.takeWhile isWordChar).isEmpty then genScanGo fuel cs
      else
        match cs.drop (cs.takeWhile isWordChar).length with
        | [] => genScanGo fuel cs
        | c2 :: afterOpen =>
          if c2 = '>' then
            match firstQuad afterOpen with
            | none => []
            | some (_, q, afterQuad) =>
              match splitFirst (closeTagOf (cs.takeWhile isWordChar)) afterQuad with
              | none => genScanGo fuel cs
              | some (_, afterClose) =>
                let A := afterOpen.take (afterOpen.length -
                  ((closeTagOf (cs.takeWhile isWordChar)).length + afterClose.length))
                (cs.takeWhile isWordChar, q, A) :: genScanGo fuel afterClose
          else genScanGo fuel cs
    else genScanGo fuel cs

/-- The catch-all matches over the wrapper content. -/
def genScan (s : List Char) : List (List Char × (ℕ × ℕ × ℕ × ℕ) × List Char) :=
  genScanGo s.length s

/-- `tag_name.startswith('loc_')`. -/
def startsWithLoc (w : List Char) : Bool :=
  (['l', 'o', 'c', '_'] : List Char).isPrefixOf w

/-- The seen-key of a zone: `f"{zone['type']}_{zone['x1']}_{zone['y1']}"`
(backend visualizer lines 102 and 110). -/
def intStr (i : ℤ) : String :=
  if i < 0 then "-" ++ ⟨natChars (-i).toNat⟩ else ⟨natChars i.toNat⟩

/-- The dedup key string. -/
def keyOf (z : Zone) : String := z.kind ++ "_" ++ intStr z.x1 ++ "_" ++ intStr z.y1

/-- Build the zone a catch-all match appends (backend visualizer lines
114-125): coordinates from the groups, content loc-stripped and stripped. -/
def mkGenZone (m : List Char × (ℕ × ℕ × ℕ × ℕ) × List Char) : Zone :=
  ⟨⟨m.1⟩, (m.2.1.1 : ℤ), (m.2.1.2.1 : ℤ), (m.2.1.2.2.1 : ℤ), (m.2.1.2.2.2 : ℤ),
    ⟨pyStrip (stripLocs m.2.2)⟩⟩

/-- The catch-all loop of backend visualizer lines 100-126: skip `loc_*`
names; skip a match whose key is already in `found_tags`; otherwise append
the zone and add its key. -/
def genDedup (zones : List Zone) (found : List String) :
    List (List Char × (ℕ × ℕ × ℕ × ℕ) × List Char) → List Zone
  | [] => zones
  | m :: rest =>
    if startsWithLoc m.1 then genDedup zones found rest
    else if keyOf (mkGenZone m) ∈ found then genDedup zones found rest
    else genDedup (zones ++ [mkGenZone m]) (keyOf (mkGenZone m) :: found) rest

/-- `zones.sort(key=lambda z: (z['y1'], z['x1']))` — the comparison. -/
def zoneLe (z w : Zone) : Prop := z.y1 < w.y1 ∨ (z.y1 = w.y1 ∧ z.x1 ≤ w.x1)

instance zoneLe.decidableRel : DecidableRel zoneLe := fun z w => by
  unfold zoneLe
  infer_instance

instance zoneLe.isTotal : IsTotal Zone zoneLe :=
  ⟨fun z w => by unfold zoneLe; omega⟩

instance zoneLe.isTrans : IsTrans Zone zoneLe :=
  ⟨fun a b c hab hbc => by unfold zoneLe at hab hbc ⊢; omega⟩

/-- Python's `list.sort` is a stable sort by the key; a stable sort's
output is unique, so insertion sort with the total preorder `zoneLe`
computes it. -/
def sortZones (zs : List Zone) : List Zone := List.insertionSort zoneLe zs

/-- Zone extraction of `backend/page_treatment/visualizer.py` lines 60-147:
the `tag_types` passes in order, then the deduplicated catch-all pass, then
the `(y1, x1)` sort. -/
def extractZonesB (content : List Char) : List Zone :=
  let phase1 := tag_types.foldl (fun acc t => acc ++ scanTag t content) []
  sortZones (genDedup phase1 (phase1.map keyOf) (genScan content))

/-- The parser error taxonomy of the spec (§7): the backend parser raises
`ValueError("DocTags file is empty")` for blank input and
`ValueError("No <doctag> tags found in the file")` when the wrapper is
missing. -/
inductive ParseError where
  | emptyDocument
  | malformedDocument
deriving DecidableEq, Repr

/-- `backend/page_treatment/visualizer.py` `parse_doctags` (lines 42-147). -/
def parse_doctags (s : String) : Except ParseError (List Zone) :=
  if isBlank s then .error .emptyDocument
  else
    match findWrapper s.data with
    | none => .error .malformedDocument
    | some content => .ok (extractZonesB content)

/-- The per-open-tag loop of root `visualizer.py` `parse_doctags` lines
128-175: `re.finditer(r'<(\w+)>', content)` visits every opening tag in
document order (the scan always resumes right after the `<w>` token);
`loc_*` names are skipped; an open without a closing `</w>` is skipped;
the first quadruple inside the `open..close` span gives the coordinates
(none → skipped) and the text between the quadruple and the closing tag,
`.strip()`-ed (location markers are NOT stripped here), gives the content. -/
def rootScanGo : ℕ → List Char → List Zone
  | 0, _ => []
  | _ + 1, [] => []
  | fuel + 1, c :: cs =>
    if c = '<' then
      if (cs.takeWhile isWordChar).isEmpty then rootScanGo fuel cs
      else
        match cs.drop (cs.takeWhile isWordChar).length with
        | [] => rootScanGo fuel cs
        | c2 :: afterOpen =>
          if c2 = '>' then
            if startsWithLoc (cs.takeWhile isWordChar) then rootScanGo fuel afterOpen
            else
              match splitFirst (closeTagOf (cs.takeWhile isWordChar)) afterOpen with
              | none => rootScanGo fuel afterOpen
              | some (mid, _) =>
                match firstQuad mid with
                | none => rootScanGo fuel afterOpen
                | some (_, q, textRest) =>
                  ⟨⟨cs.takeWhile isWordChar⟩, (q.1 : ℤ), (q.2.1 : ℤ), (q.2.2.1 : ℤ),
                    (q.2.2.2 : ℤ), ⟨pyStrip textRest⟩⟩ :: rootScanGo fuel afterOpen
          else rootScanGo fuel cs
    else rootScanGo fuel cs

/-- Root `visualizer.py` zone extraction over the wrapper content. -/
def rootParseZones (content : List Char) : List Zone :=
  rootScanGo content.length content

/-- Root `visualizer.py` `parse_doctags` (lines 110-175): one error kind
(`ValueError`) when the wrapper is missing — blank input takes the same
path — and zones in raw document order, unsorted. -/
def parse_doctags_viz (s : String) : Except ParseError (List Zone) :=
  match findWrapper s.data with
  | none => .error .malformedDocument
  | some content => .ok (rootParseZones content)

/-! ## Basic facts about `pyInt` and the grid formula -/

theorem pyInt_of_nonneg {q : ℚ} (h : 0 ≤ q) : pyInt q = ⌊q⌋ := by
  unfold pyInt
  rw [if_neg (not_lt.mpr h)]

theorem pyInt_intCast (n : ℤ) : pyInt (n : ℚ) = n := by
  unfold pyInt
  split <;> simp

theorem roundHalfEven_intCast (n : ℤ) : roundHalfEven (n : ℚ) = n := by
  unfold roundHalfEven
  rw [Int.floor_intCast]
  norm_num

theorem int_log_of_bounds {q : ℚ} {e : ℤ} (h1 : (2 : ℚ) ^ e ≤ q)
    (h2 : q < (2 : ℚ) ^ (e + 1)) : Int.log 2 q = e := by
  have hq : 0 < q := lt_of_lt_of_le (by positivity) h1
  have hle : e ≤ Int.log 2 q := by
    rw [← Int.zpow_le_iff_le_log (by norm_num) hq]
    exact_mod_cast h1
  have hlt : Int.log 2 q < e + 1 := by
    rw [← Int.lt_zpow_iff_log_lt (by norm_num) hq]
    exact_mod_cast h2
  omega

/-- A positive dyadic rational written with a full 53-bit significand is an
IEEE binary64 value: `fl` returns it unchanged. -/
theorem fl_dyadic {m : ℕ} {t : ℤ} (h1 : 2 ^ 52 ≤ m) (h2 : m < 2 ^ 53) :
    fl ((m : ℚ) * (2 : ℚ) ^ t) = (m : ℚ) * (2 : ℚ) ^ t := by
  have hm0 : 0 < m := lt_of_lt_of_le (by norm_num) h1
  have hq : 0 < (m : ℚ) * (2 : ℚ) ^ t := by positivity
  have h2Q : (0 : ℚ) < 2 := by norm_num
  have he : Int.log 2 ((m : ℚ) * (2 : ℚ) ^ t) = 52 + t := by
    apply int_log_of_bounds
    · rw [zpow_add₀ (ne_of_gt h2Q)]
      apply mul_le_mul_of_nonneg_right _ (by positivity)
      rw [show ((2 : ℚ) ^ (52 : ℤ)) = ((2 ^ 52 : ℕ) : ℚ) by push_cast; norm_num]
      exact_mod_cast h1
    · rw [show (52 + t + 1 : ℤ) = 53 + t by ring, zpow_add₀ (ne_of_gt h2Q)]
      apply mul_lt_mul_of_pos_right _ (by positivity)
      rw [show ((2 : ℚ) ^ (53 : ℤ)) = ((2 ^ 53 : ℕ) : ℚ) by push_cast; norm_num]
      exact_mod_cast h2
  unfold fl
  rw [if_neg (ne_of_gt hq), if_neg (not_lt.mpr hq.le), he]
  have harg : (m : ℚ) * (2 : ℚ) ^ t * (2 : ℚ) ^ (52 - (52 + t)) = ((m : ℤ) : ℚ) := by
    rw [mul_assoc, ← zpow_add₀ (ne_of_gt h2Q),
      show (t + (52 - (52 + t)) : ℤ) = 0 by ring, zpow_zero, mul_one]
    push_cast
    ring
  rw [harg, roundHalfEven_intCast,
    show (52 + t - 52 : ℤ) = t by ring]
  push_cast
  ring

theorem fl_eq_dyadic {x : ℚ} (m : ℕ) (t : ℤ) (hx : x = (m : ℚ) * (2 : ℚ) ^ t)
    (h1 : 2 ^ 52 ≤ m) (h2 : m < 2 ^ 53) : fl x = x := by
  rw [hx]; exact fl_dyadic h1 h2

theorem qpow_neg_nat (n : ℕ) : (2 : ℚ) ^ (-(n : ℤ)) = 1 / (2 : ℚ) ^ n := by
  rw [zpow_neg, zpow_natCast, one_div]

theorem fl_half : fl (1 / 2 : ℚ) = 1 / 2 :=
  fl_eq_dyadic (2 ^ 52) (-53)
    (by rw [show ((-53 : ℤ)) = -((53 : ℕ) : ℤ) by norm_num, qpow_neg_nat]
        push_cast
        norm_num)
    (by norm_num) (by norm_num)

theorem fl_50 : fl (50 : ℚ) = 50 :=
  fl_eq_dyadic (25 * 2 ^ 48) (-47)
    (by rw [show ((-47 : ℤ)) = -((47 : ℕ) : ℤ) by norm_num, qpow_neg_nat]
        push_cast
        norm_num)
    (by norm_num) (by norm_num)

theorem fl_200 : fl (200 : ℚ) = 200 :=
  fl_eq_dyadic (25 * 2 ^ 48) (-45)
    (by rw [show ((-45 : ℤ)) = -((45 : ℕ) : ℤ) by norm_num, qpow_neg_nat]
        push_cast
        norm_num)
    (by norm_num) (by norm_num)

theorem fl_inv_two : fl ((2 : ℚ)⁻¹) = (2 : ℚ)⁻¹ := by
  rw [show ((2 : ℚ)⁻¹) = 1 / 2 by norm_num]
  exact fl_half

theorem fl_1000 : fl (1000 : ℚ) = 1000 :=
  fl_eq_dyadic (125 * 2 ^ 46) (-43)
    (by rw [show ((-43 : ℤ)) = -((43 : ℕ) : ℤ) by norm_num, qpow_neg_nat]
        push_cast
        norm_num)
    (by norm_num) (by norm_num)

/-- `int(x * 500 / 500) = x`: one grid-normalized coordinate is unchanged on
a 500-pixel axis. -/
theorem gridCoord_id (x : ℤ) :
    pyInt ((x : ℚ) * (DEFAULT_GRID_SIZE : ℕ) / (DEFAULT_GRID_SIZE : ℕ)) = x := by
  have h : ((x : ℚ) * (DEFAULT_GRID_SIZE : ℕ) / (DEFAULT_GRID_SIZE : ℕ)) = (x : ℚ) := by
    rw [mul_div_assoc, div_self (by norm_num [DEFAULT_GRID_SIZE]), mul_one]
  rw [h, pyInt_intCast]

/-- Normalizing against a 500×500 page is the identity. -/
theorem normalize_id_500 (els : List Zone) :
    normalize_coordinates els DEFAULT_GRID_SIZE DEFAULT_GRID_SIZE = els := by
  unfold normalize_coordinates
  have h : ∀ el : Zone,
      ({ el with
        x1 := pyInt ((el.x1 : ℚ) * (DEFAULT_GRID_SIZE : ℕ) / (DEFAULT_GRID_SIZE : ℕ))
        y1 := pyInt ((el.y1 : ℚ) * (DEFAULT_GRID_SIZE : ℕ) / (DEFAULT_GRID_SIZE : ℕ))
        x2 := pyInt ((el.x2 : ℚ) * (DEFAULT_GRID_SIZE : ℕ) / (DEFAULT_GRID_SIZE : ℕ))
        y2 := pyInt ((el.y2 : ℚ) * (DEFAULT_GRID_SIZE : ℕ) / (DEFAULT_GRID_SIZE : ℕ)) } : Zone)
        = el := by
    intro el
    simp [gridCoord_id]
  simp only [h, List.map_id']

/-- All `x2` equal to zero forces the running maximum to zero. -/
theorem listMaxZ_zero {l : List ℤ} (hne : l ≠ []) (hz : ∀ x ∈ l, x = 0) :
    listMaxZ l = 0 := by
  cases l with
  | nil => exact absurd rfl hne
  | cons x xs =>
    have hx : x = 0 := hz x (List.mem_cons_self x xs)
    subst hx
    unfold listMaxZ
    induction xs with
    | nil => rfl
    | cons y ys ih =>
      have hy : y = 0 := hz y (by simp)
      subst hy
      simpa using ih (by simp) (by intro z hzz; exact hz z (by simp at hzz ⊢; tauto))

/-- When the elements are non-empty and both maxima are on the 0-500 grid,
`auto_adjust_coordinates` takes the grid-normalization branch. -/
theorem auto_adjust_grid (els : List Zone) (W H : ℕ) (hne : els ≠ [])
    (hx : maxZX els ≤ 500) (hy : maxZY els ≤ 500) :
    auto_adjust_coordinates els W H = normalize_coordinates els W H := by
  unfold auto_adjust_coordinates
  rw [if_neg hne, if_pos]
  exact ⟨by exact_mod_cast hx, by exact_mod_cast hy⟩

/-- When the grid case does not apply (and the list is non-empty),
`auto_adjust_coordinates` applies the per-axis heuristic scales. -/
theorem auto_adjust_heuristic (els : List Zone) (W H : ℕ) (hne : els ≠ [])
    (h : ¬(maxZX els ≤ 500 ∧ maxZY els ≤ 500)) :
    auto_adjust_coordinates els W H =
      els.map (applyScales (calculate_scale_factor (maxZX els) W)
        (calculate_scale_factor (maxZY els) H)) := by
  unfold auto_adjust_coordinates
  rw [if_neg hne, if_neg]
  intro hc
  exact h ⟨by exact_mod_cast hc.1, by exact_mod_cast hc.2⟩

/-- For a positive maximum, `calculate_scale_factor` computes exactly the
spec's conservative-with-aggressive-override formula. -/
theorem calculate_scale_factor_eq_claim (m : ℤ) (s : ℕ) (hm : 0 < m) :
    calculate_scale_factor m s = claimScaleFactor m s := by
  unfold calculate_scale_factor claimScaleFactor
  rw [if_neg (not_le.mpr hm)]

theorem gridCoord_eq_floor (x : ℤ) (W : ℕ) (hx : 0 ≤ x) :
    gridCoord x W = ⌊(x : ℚ) * (W : ℚ) / ((DEFAULT_GRID_SIZE : ℕ) : ℚ)⌋ := by
  unfold gridCoord
  exact pyInt_of_nonneg (by positivity)

theorem gridCoord_nonneg (x : ℤ) (W : ℕ) (hx : 0 ≤ x) : 0 ≤ gridCoord x W := by
  rw [gridCoord_eq_floor x W hx]
  exact Int.le_floor.mpr (by push_cast; positivity)

theorem gridCoord_mono {x y : ℤ} (W : ℕ) (hx : 0 ≤ x) (hxy : x ≤ y) :
    gridCoord x W ≤ gridCoord y W := by
  rw [gridCoord_eq_floor x W hx, gridCoord_eq_floor y W (le_trans hx hxy)]
  apply Int.floor_le_floor
  have hc : (0 : ℚ) < ((DEFAULT_GRID_SIZE : ℕ) : ℚ) := by norm_num [DEFAULT_GRID_SIZE]
  have h1 : (x : ℚ) ≤ (y : ℚ) := by exact_mod_cast hxy
  gcongr

theorem gridCoord_le_size {x : ℤ} (W : ℕ) (hx : 0 ≤ x) (hb : x ≤ 500) :
    gridCoord x W ≤ (W : ℤ) := by
  rw [gridCoord_eq_floor x W hx]
  have h : (x : ℚ) * (W : ℚ) / ((DEFAULT_GRID_SIZE : ℕ) : ℚ) ≤ (W : ℚ) := by
    rw [div_le_iff₀ (by norm_num [DEFAULT_GRID_SIZE])]
    have : (x : ℚ) ≤ 500 := by exact_mod_cast hb
    calc (x : ℚ) * (W : ℚ) ≤ 500 * (W : ℚ) :=
          mul_le_mul_of_nonneg_right this (by positivity)
      _ = (W : ℚ) * ((DEFAULT_GRID_SIZE : ℕ) : ℚ) := by
          norm_num [DEFAULT_GRID_SIZE]; ring
  calc ⌊(x : ℚ) * (W : ℚ) / ((DEFAULT_GRID_SIZE : ℕ) : ℚ)⌋ ≤ ⌊(W : ℚ)⌋ :=
        Int.floor_le_floor h
    _ = (W : ℤ) := by exact_mod_cast Int.floor_intCast (α := ℚ) (W : ℤ)

/-! ## Claim C1: grid normalization -/

/-- C1: for every non-empty zone list whose maximum `x2` and maximum `y2`
are both at most 500, reconciliation (`auto_adjust_coordinates`) rescales
every coordinate independently per axis by `x' = int(x * pageWidth / 500)`
and `y' = int(y * pageHeight / 500)`, and reconciling against a 500×500
page is the identity map on the zones. -/
theorem claim_C1 (els : List Zone) (W H : ℕ) (hne : els ≠ [])
    (hx : maxZX els ≤ 500) (hy : maxZY els ≤ 500) :
    auto_adjust_coordinates els W H =
      els.map (fun el =>
        { el with
          x1 := pyInt ((el.x1 : ℚ) * (W : ℚ) / 500)
          y1 := pyInt ((el.y1 : ℚ) * (H : ℚ) / 500)
          x2 := pyInt ((el.x2 : ℚ) * (W : ℚ) / 500)
          y2 := pyInt ((el.y2 : ℚ) * (H : ℚ) / 500) }) ∧
    auto_adjust_coordinates els 500 500 = els := by
  constructor
  · rw [auto_adjust_grid els W H hne hx hy]
    unfold normalize_coordinates
    norm_num [DEFAULT_GRID_SIZE]
  · rw [auto_adjust_grid els 500 500 hne hx hy]
    exact normalize_id_500 els

/-- C1 witness: the spec's concrete scenario.  The single zone with raw box
`(10,10,100,50)` reconciled against a 1000×1000 page yields `(20,20,200,100)`
with kind and text unchanged. -/
theorem claim_C1_witness :
    auto_adjust_coordinates [⟨"text", 10, 10, 100, 50, "Hello"⟩] 1000 1000 =
      [⟨"text", 20, 20, 200, 100, "Hello"⟩] := by
  have h := claim_C1 [⟨"text", 10, 10, 100, 50, "Hello"⟩] 1000 1000
    (by decide) (by decide) (by decide)
  refine h.1.trans ?_
  norm_num [pyInt]

/-! ## Claim C2: heuristic scale-adjustment -/

/-- C2: when the grid case does not apply and the list is non-empty,
`auto_adjust_coordinates` multiplies every zone's coordinates by the
per-axis factors `calculate_scale_factor` and truncates to int, and for a
positive maximum that factor is exactly the spec's formula: `min(W/maxX, 1)`
when `maxX > W`, else `max(W/maxX, 0.5)`, overridden to exactly `W/maxX`
whenever `maxX > W*5` or `maxX < W/5` (`claimScaleFactor`).  Both sides
perform the quotients and products in IEEE binary64 (`fl`), as the program
does — e.g. on a 1000-wide page with `maxX = 998` the factor is
`fl(1000/998) = 1000/998 - 245/(499*2^52)` and coordinate 998 maps to
`int(fl(998 * fl(1000/998))) = int(1000 - 2^-43) = 999`, not `1000`. -/
theorem claim_C2 (els : List Zone) (W H : ℕ) (hne : els ≠ [])
    (hgrid : ¬(maxZX els ≤ 500 ∧ maxZY els ≤ 500)) :
    auto_adjust_coordinates els W H =
      els.map (applyScales (calculate_scale_factor (maxZX els) W)
        (calculate_scale_factor (maxZY els) H)) ∧
    (0 < maxZX els → calculate_scale_factor (maxZX els) W = claimScaleFactor (maxZX els) W) ∧
    (0 < maxZY els → calculate_scale_factor (maxZY els) H = claimScaleFactor (maxZY els) H) :=
  ⟨auto_adjust_heuristic els W H hne hgrid,
   fun h => calculate_scale_factor_eq_claim _ _ h,
   fun h => calculate_scale_factor_eq_claim _ _ h⟩

/-- C2 witness: a zone with `maxX = maxY = 2000` against a 1000×1000 page
gets the conservative factor `min(1000/2000, 1) = 0.5` on both axes
(no aggressive override since `2000 ≤ 5000` and `2000 ≥ 200`). -/
theorem claim_C2_witness :
    auto_adjust_coordinates [⟨"picture", 100, 100, 2000, 2000, ""⟩] 1000 1000 =
      [⟨"picture", 50, 50, 1000, 1000, ""⟩] ∧
    calculate_scale_factor 2000 1000 = claimScaleFactor 2000 1000 ∧
    claimScaleFactor 2000 1000 = 1 / 2 := by
  have h := claim_C2 [⟨"picture", 100, 100, 2000, 2000, ""⟩] 1000 1000
    (by decide) (by decide)
  refine ⟨h.1.trans ?_, h.2.1 (by decide), ?_⟩
  · norm_num [applyScales, calculate_scale_factor, maxZX, maxZY, listMaxZ, pyInt,
      min_def, max_def, fl_half, fl_inv_two, fl_50, fl_200, fl_1000]
  · norm_num [claimScaleFactor, min_def, fl_half, fl_inv_two, fl_200]

/-- The correctly rounded double of `1000/998`: scaling `500/499` into the
53-bit range gives `500 * 2^52 / 499`, whose fractional part `245/499` is
below one half, so the significand rounds down to `4512624877124745`. -/
theorem fl_div_1000_998 : fl ((1000 : ℚ) / 998) = 4512624877124745 / 2 ^ 52 := by
  have he : Int.log 2 ((1000 : ℚ) / 998) = 0 := by
    apply int_log_of_bounds
    · rw [zpow_zero]; norm_num
    · rw [show ((0 : ℤ) + 1) = ((1 : ℕ) : ℤ) by norm_num, zpow_natCast]; norm_num
  unfold fl
  rw [if_neg (by norm_num), if_neg (by norm_num), he,
    show (52 - 0 : ℤ) = ((52 : ℕ) : ℤ) by norm_num, zpow_natCast,
    show (0 - 52 : ℤ) = -((52 : ℕ) : ℤ) by norm_num, qpow_neg_nat,
    show ((1000 : ℚ) / 998) * (2 : ℚ) ^ (52 : ℕ) = 2251799813685248000 / 499 by norm_num]
  rw [show roundHalfEven ((2251799813685248000 : ℚ) / 499) = 4512624877124745 by
    unfold roundHalfEven
    rw [show ⌊(2251799813685248000 : ℚ) / 499⌋ = 4512624877124745 by
      rw [Int.floor_eq_iff]; norm_num]
    rw [if_pos (by norm_num)]]
  push_cast
  ring

/-- The float trace the program actually produces at `maxX = 998` on a
1000-wide page: the heuristic factor is the rounded quotient
`4512624877124745 * 2^-52` (slightly below `1000/998`), the re-rounded
product `fl(998 * factor)` is `1000 - 2^-43`, and `int` of it is `999` —
whereas `int` of the exact rational product `998 * (1000/998)` is `1000`.
The first two conjuncts are what `calculate_scale_factor` and `applyScales`
compute; the third is the value an exact-arithmetic model would predict. -/
theorem float_998_coordinate :
    calculate_scale_factor 998 1000 = 4512624877124745 / 2 ^ 52 ∧
    pyInt (fl ((998 : ℚ) * (4512624877124745 / 2 ^ 52))) = 999 ∧
    pyInt ((998 : ℚ) * ((1000 : ℚ) / 998)) = 1000 := by
  refine ⟨?_, ?_, ?_⟩
  · unfold calculate_scale_factor
    rw [show (((1000 : ℕ) : ℚ) / 5) = (200 : ℚ) by norm_num, fl_200,
      show (((1000 : ℕ) : ℚ) / ((998 : ℤ) : ℚ)) = (1000 : ℚ) / 998 by norm_num,
      fl_div_1000_998,
      if_neg (by norm_num), if_neg (by norm_num), if_neg (by norm_num),
      max_eq_left (by norm_num)]
  · have h1 : (998 : ℚ) * (4512624877124745 / 2 ^ 52) =
        2251799813685247755 / 2 ^ 51 := by norm_num
    have he : Int.log 2 ((2251799813685247755 : ℚ) / 2 ^ 51) = 9 := by
      apply int_log_of_bounds
      · rw [show ((9 : ℤ)) = ((9 : ℕ) : ℤ) by norm_num, zpow_natCast]; norm_num
      · rw [show ((9 : ℤ) + 1) = ((10 : ℕ) : ℤ) by norm_num, zpow_natCast]; norm_num
    rw [h1]
    unfold fl
    rw [if_neg (by norm_num), if_neg (by norm_num), he,
      show (52 - 9 : ℤ) = ((43 : ℕ) : ℤ) by norm_num, zpow_natCast,
      show (9 - 52 : ℤ) = -((43 : ℕ) : ℤ) by norm_num, qpow_neg_nat,
      show ((2251799813685247755 : ℚ) / 2 ^ 51) * (2 : ℚ) ^ (43 : ℕ) =
        2251799813685247755 / 256 by norm_num]
    rw [show roundHalfEven ((2251799813685247755 : ℚ) / 256) = 8796093022207999 by
      unfold roundHalfEven
      rw [show ⌊(2251799813685247755 : ℚ) / 256⌋ = 8796093022207999 by
        rw [Int.floor_eq_iff]; norm_num]
      rw [if_pos (by norm_num)]]
    rw [show ((8796093022207999 : ℤ) : ℚ) * (1 / (2 : ℚ) ^ (43 : ℕ)) =
        8796093022207999 / 2 ^ 43 by push_cast; ring]
    rw [pyInt_of_nonneg (by norm_num)]
    rw [Int.floor_eq_iff]
    norm_num
  · rw [show ((998 : ℚ) * ((1000 : ℚ) / 998)) = ((1000 : ℤ) : ℚ) by push_cast; norm_num,
      pyInt_intCast]

/-! ## Claim C3: degenerate-input fallback -/

/-- C3 counterexample: a zone list in which every zone has `x2 = 0` and
`y2 = 0` is NOT returned unchanged (identity scale) when the page is not
500×500: `maxX = maxY = 0 ≤ 500` sends it down the grid-normalization
branch, which rescales `x1`, `y1` by `W/500`, `H/500`. -/
theorem claim_C3_counterexample :
    auto_adjust_coordinates [⟨"text", 100, 100, 0, 0, ""⟩] 1000 1000 ≠
      [⟨"text", 100, 100, 0, 0, ""⟩] := by
  norm_num [auto_adjust_coordinates, normalize_coordinates, maxZX, maxZY, listMaxZ,
    DEFAULT_GRID_SIZE, pyInt]

/-- C3 amended: for every non-empty zone list in which every zone has
`x2 = 0` and `y2 = 0`, reconciliation completes without raising (it takes
the grid-normalization branch, whose only division is by the constant 500,
never by `maxX`), scaling coordinates by `W/500` and `H/500`; it returns
the zones unchanged when the page is 500×500. -/
theorem claim_C3_amended (els : List Zone) (W H : ℕ) (hne : els ≠ [])
    (hdeg : ∀ el ∈ els, el.x2 = 0 ∧ el.y2 = 0) :
    auto_adjust_coordinates els W H = normalize_coordinates els W H ∧
    auto_adjust_coordinates els 500 500 = els := by
  have hmapne : ∀ (f : Zone → ℤ), els.map f ≠ [] := by
    intro f h
    exact hne (List.map_eq_nil_iff.mp h)
  have hx : maxZX els = 0 := by
    apply listMaxZ_zero (hmapne Zone.x2)
    intro x hxm
    obtain ⟨el, hel, rfl⟩ := List.mem_map.mp hxm
    exact (hdeg el hel).1
  have hy : maxZY els = 0 := by
    apply listMaxZ_zero (hmapne Zone.y2)
    intro y hym
    obtain ⟨el, hel, rfl⟩ := List.mem_map.mp hym
    exact (hdeg el hel).2
  refine ⟨auto_adjust_grid els W H hne (by omega) (by omega), ?_⟩
  rw [auto_adjust_grid els 500 500 hne (by omega) (by omega)]
  exact normalize_id_500 els

/-- C3 witness: the amended statement at a concrete degenerate zone list. -/
theorem claim_C3_witness :
    auto_adjust_coordinates [⟨"text", 100, 100, 0, 0, ""⟩] 1000 1000 =
      normalize_coordinates [⟨"text", 100, 100, 0, 0, ""⟩] 1000 1000 ∧
    auto_adjust_coordinates [⟨"text", 100, 100, 0, 0, ""⟩] 500 500 =
      [⟨"text", 100, 100, 0, 0, ""⟩] :=
  claim_C3_amended [⟨"text", 100, 100, 0, 0, ""⟩] 1000 1000
    (by decide) (by decide)

/-! ## Claim C10: bounds and monotonicity of grid normalization -/

/-- C10: for a zone with `0 ≤ x1 ≤ x2 ≤ 500` and `0 ≤ y1 ≤ y2 ≤ 500` and a
positive page size, the grid-normalized coordinates satisfy
`0 ≤ x1' ≤ x2' ≤ W` and `0 ≤ y1' ≤ y2' ≤ H`; strict ordering however is not
preserved: a zone with `x1 < x2` can normalize to `x1' = x2'` by integer
truncation (witnessed with `x1 = 0`, `x2 = 1`, `W < 500`). -/
theorem claim_C10 :
    (∀ (z : Zone) (W H : ℕ), 0 ≤ z.x1 → z.x1 ≤ z.x2 → z.x2 ≤ 500 →
      0 ≤ z.y1 → z.y1 ≤ z.y2 → z.y2 ≤ 500 → 0 < W → 0 < H →
      ∀ z' ∈ normalize_coordinates [z] W H,
        (0 ≤ z'.x1 ∧ z'.x1 ≤ z'.x2 ∧ z'.x2 ≤ (W : ℤ)) ∧
        (0 ≤ z'.y1 ∧ z'.y1 ≤ z'.y2 ∧ z'.y2 ≤ (H : ℤ))) ∧
    (∃ (z : Zone) (W H : ℕ), 0 ≤ z.x1 ∧ z.x1 < z.x2 ∧ z.x2 ≤ 500 ∧
      0 < W ∧ W < 500 ∧ 0 < H ∧
      ∀ z' ∈ normalize_coordinates [z] W H, z'.x1 = z'.x2) := by
  constructor
  · intro z W H hx1 hx12 hx2 hy1 hy12 hy2 _ _ z' hz'
    have hz'' : z' =
        { z with
          x1 := gridCoord z.x1 W
          y1 := gridCoord z.y1 H
          x2 := gridCoord z.x2 W
          y2 := gridCoord z.y2 H } := by
      simpa [normalize_coordinates, gridCoord] using hz'
    subst hz''
    exact ⟨⟨gridCoord_nonneg z.x1 W hx1, gridCoord_mono W hx1 hx12,
        gridCoord_le_size W (le_trans hx1 hx12) hx2⟩,
      ⟨gridCoord_nonneg z.y1 H hy1, gridCoord_mono H hy1 hy12,
        gridCoord_le_size H (le_trans hy1 hy12) hy2⟩⟩
  · refine ⟨⟨"text", 0, 0, 1, 1, ""⟩, 10, 10, by decide, by decide, by decide,
      by decide, by decide, by decide, ?_⟩
    intro z' hz'
    simp only [normalize_coordinates, List.map_cons, List.map_nil,
      List.mem_singleton] at hz'
    subst hz'
    show pyInt _ = pyInt _
    norm_num [pyInt, DEFAULT_GRID_SIZE]

/-- C10 witness: the bounds at the concrete zone `(10,10,100,50)` normalized
against a 1000×1000 page, i.e. at `(20,20,200,100)`. -/
theorem claim_C10_witness :
    (0 ≤ (⟨"text", 20, 20, 200, 100, ""⟩ : Zone).x1 ∧
      (⟨"text", 20, 20, 200, 100, ""⟩ : Zone).x1 ≤ (⟨"text", 20, 20, 200, 100, ""⟩ : Zone).x2 ∧
      (⟨"text", 20, 20, 200, 100, ""⟩ : Zone).x2 ≤ ((1000 : ℕ) : ℤ)) ∧
    (0 ≤ (⟨"text", 20, 20, 200, 100, ""⟩ : Zone).y1 ∧
      (⟨"text", 20, 20, 200, 100, ""⟩ : Zone).y1 ≤ (⟨"text", 20, 20, 200, 100, ""⟩ : Zone).y2 ∧
      (⟨"text", 20, 20, 200, 100, ""⟩ : Zone).y2 ≤ ((1000 : ℕ) : ℤ)) := by
  have h := claim_C10.1 ⟨"text", 10, 10, 100, 50, ""⟩ 1000 1000
    (by decide) (by decide) (by decide) (by decide) (by decide) (by decide)
    (by decide) (by decide) ⟨"text", 20, 20, 200, 100, ""⟩
    (by norm_num [normalize_coordinates, DEFAULT_GRID_SIZE, pyInt])
  exact h

/-! ## Facts about decimal rendering and the location-marker scanners -/

theorem digitCh_toNat {m : ℕ} (hm : m < 10) : (digitCh m).toNat = 48 + m := by
  interval_cases m <;> decide

theorem digitCh_isDigit {m : ℕ} (hm : m < 10) : (digitCh m).isDigit = true := by
  interval_cases m <;> decide

theorem digitsVal_append (ds : List Char) (c : Char) :
    digitsVal (ds ++ [c]) = 10 * digitsVal ds + (c.toNat - 48) := by
  unfold digitsVal
  rw [List.foldl_append]
  rfl

theorem natCharsGo_spec : ∀ fuel n, n < fuel →
    (∀ c ∈ natCharsGo fuel n, c.isDigit = true) ∧ natCharsGo fuel n ≠ [] ∧
      digitsVal (natCharsGo fuel n) = n := by
  intro fuel
  induction fuel with
  | zero => intro n h; omega
  | succ fuel ih =>
    intro n h
    unfold natCharsGo
    by_cases h10 : n < 10
    · rw [if_pos h10]
      refine ⟨?_, by simp, ?_⟩
      · intro c hc
        simp at hc
        subst hc
        exact digitCh_isDigit h10
      · show digitsVal ([] ++ [digitCh n]) = n
        rw [digitsVal_append, digitCh_toNat h10]
        simp [digitsVal]
    · rw [if_neg h10]
      have hdiv : n / 10 < fuel := by
        have := Nat.div_lt_self (show 0 < n by omega) (show 1 < 10 by omega)
        omega
      obtain ⟨hd, hne, hv⟩ := ih (n / 10) hdiv
      have hmod : n % 10 < 10 := Nat.mod_lt _ (by omega)
      refine ⟨?_, by simp [hne], ?_⟩
      · intro c hc
        rcases List.mem_append.mp hc with hc | hc
        · exact hd c hc
        · simp at hc
          subst hc
          exact digitCh_isDigit hmod
      · rw [digitsVal_append, hv, digitCh_toNat hmod]
        omega

theorem natChars_digits (n : ℕ) : ∀ c ∈ natChars n, c.isDigit = true :=
  (natCharsGo_spec (n + 1) n (by omega)).1

theorem natChars_ne_nil (n : ℕ) : natChars n ≠ [] :=
  (natCharsGo_spec (n + 1) n (by omega)).2.1

theorem digitsVal_natChars (n : ℕ) : digitsVal (natChars n) = n :=
  (natCharsGo_spec (n + 1) n (by omega)).2.2

theorem dropPre_self (p t : List Char) : dropPre p (p ++ t) = some t := by
  induction p with
  | nil => rfl
  | cons c cs ih => simp [dropPre, ih]

theorem takeWhile_digits_append (a rest : List Char) (ha : ∀ c ∈ a, c.isDigit = true) :
    (a ++ '>' :: rest).takeWhile Char.isDigit = a ∧
    (a ++ '>' :: rest).dropWhile Char.isDigit = '>' :: rest := by
  induction a with
  | nil =>
    refine ⟨?_, ?_⟩ <;> simp [List.takeWhile_cons, List.dropWhile_cons]
  | cons c cs ih =>
    have hc : c.isDigit = true := ha c (by simp)
    obtain ⟨ih1, ih2⟩ := ih (fun d hd => ha d (by simp [hd]))
    exact ⟨by simp [List.takeWhile_cons, hc, ih1], by simp [List.dropWhile_cons, hc, ih2]⟩

theorem matchLoc_locTag (n : ℕ) (rest : List Char) :
    matchLoc (locTag n ++ rest) = some (n, rest) := by
  have he : locTag n ++ rest = locOpen ++ (natChars n ++ '>' :: rest) := by
    simp [locTag, List.append_assoc]
  obtain ⟨ht, hd⟩ := takeWhile_digits_append (natChars n) rest (natChars_digits n)
  unfold matchLoc
  rw [he, dropPre_self]
  simp [ht, hd, List.isEmpty_iff, natChars_ne_nil n, digitsVal_natChars]

theorem matchQuad_quadTag (a b c d : ℕ) (rest : List Char) :
    matchQuad (quadTag a b c d ++ rest) = some ((a, b, c, d), rest) := by
  unfold matchQuad quadTag
  simp only [List.append_assoc, matchLoc_locTag]

theorem matchQuad_head_ne {c : Char} (hc : ¬ c = '<') (cs : List Char) :
    matchQuad (c :: cs) = none := by
  have h1 : matchLoc (c :: cs) = none := by
    unfold matchLoc
    have hdp : dropPre locOpen (c :: cs) = none := by
      simp [locOpen, dropPre, hc]
    rw [hdp]
  unfold matchQuad
  rw [h1]

theorem subQuadsGo_fuel (f : ℕ × ℕ × ℕ × ℕ → List Char) :
    ∀ (fuel fuel' : ℕ) (s : List Char), s.length ≤ fuel → s.length ≤ fuel' →
      subQuadsGo f fuel s = subQuadsGo f fuel' s := by
  intro fuel
  induction fuel using Nat.strong_induction_on with
  | _ fuel ih =>
    intro fuel' s hf hf'
    cases s with
    | nil => cases fuel <;> cases fuel' <;> rfl
    | cons c cs =>
      cases fuel with
      | zero => simp at hf
      | succ fuelp =>
        cases fuel' with
        | zero => simp at hf'
        | succ fuelp' =>
          simp only [List.length_cons] at hf hf'
          simp only [subQuadsGo]
          cases hm : matchQuad (c :: cs) with
          | some v =>
            obtain ⟨q, rest⟩ := v
            have hlen := matchQuad_length hm
            simp only [List.length_cons] at hlen
            show f q ++ subQuadsGo f fuelp rest = f q ++ subQuadsGo f fuelp' rest
            rw [ih fuelp (by omega) fuelp' rest (by omega) (by omega)]
          | none =>
            show c :: subQuadsGo f fuelp cs = c :: subQuadsGo f fuelp' cs
            rw [ih fuelp (by omega) fuelp' cs (by omega) (by omega)]

theorem subQuads_cons_some (f : ℕ × ℕ × ℕ × ℕ → List Char) {c : Char}
    {cs : List Char} {q : ℕ × ℕ × ℕ × ℕ} {rest : List Char}
    (h : matchQuad (c :: cs) = some (q, rest)) :
    subQuads f (c :: cs) = f q ++ subQuads f rest := by
  unfold subQuads
  have hlen := matchQuad_length h
  simp only [List.length_cons] at hlen
  simp only [List.length_cons, subQuadsGo, h]
  rw [subQuadsGo_fuel f cs.length rest.length rest (by omega) (le_refl _)]

theorem subQuads_cons_none (f : ℕ × ℕ × ℕ × ℕ → List Char) {c : Char} {cs : List Char}
    (h : matchQuad (c :: cs) = none) :
    subQuads f (c :: cs) = c :: subQuads f cs := by
  unfold subQuads
  simp only [List.length_cons, subQuadsGo, h]

theorem subQuads_quad (f : ℕ × ℕ × ℕ × ℕ → List Char) (a b c d : ℕ) (rest : List Char) :
    subQuads f (quadTag a b c d ++ rest) = f (a, b, c, d) ++ subQuads f rest := by
  have h : matchQuad (quadTag a b c d ++ rest) = some ((a, b, c, d), rest) :=
    matchQuad_quadTag a b c d rest
  obtain ⟨x, xs, he⟩ : ∃ x xs, quadTag a b c d ++ rest = x :: xs := by
    cases hqq : quadTag a b c d ++ rest with
    | nil => exact absurd hqq (by simp [quadTag, locTag, locOpen])
    | cons x xs => exact ⟨x, xs, rfl⟩
  rw [he] at h ⊢
  exact subQuads_cons_some f h

theorem subQuads_no_open (f : ℕ × ℕ × ℕ × ℕ → List Char) (pre rest : List Char)
    (hpre : ∀ c ∈ pre, ¬ c = '<') :
    subQuads f (pre ++ rest) = pre ++ subQuads f rest := by
  induction pre with
  | nil => simp
  | cons c cs ih =>
    rw [List.cons_append, subQuads_cons_none f (matchQuad_head_ne (hpre c (by simp)) _),
      ih (fun d hd => hpre d (by simp [hd]))]
    rfl

/-- The substitution scan passes a prefix through unchanged exactly when no
quadruple match starts at any of its positions *in context* (the matcher
sees the prefix's suffix followed by the rest of the input, so a match is
allowed to straddle the boundary — this is the leftmost-match condition of
`re.sub`, not a condition on the prefix alone). -/
theorem subQuads_none_ctx (f : ℕ × ℕ × ℕ × ℕ → List Char) :
    ∀ pre rest : List Char,
    (∀ i, i < pre.length → matchQuad (pre.drop i ++ rest) = none) →
    subQuads f (pre ++ rest) = pre ++ subQuads f rest := by
  intro pre
  induction pre with
  | nil => intro rest _; simp
  | cons c cs ih =>
    intro rest h
    have h0 : matchQuad (c :: (cs ++ rest)) = none := by
      have := h 0 (by simp)
      simpa using this
    rw [List.cons_append, subQuads_cons_none f h0,
      ih rest (fun i hi => by simpa using h (i + 1) (by simpa using Nat.succ_lt_succ hi))]
    rfl

theorem subQuads_id_of_no_quad (f : ℕ × ℕ × ℕ × ℕ → List Char) :
    ∀ s, hasQuad s = false → subQuads f s = s := by
  intro s
  induction s with
  | nil => intro _; rfl
  | cons c cs ih =>
    intro h
    unfold hasQuad at h
    cases hm : matchQuad (c :: cs) with
    | some v => rw [hm] at h; simp at h
    | none =>
      rw [hm] at h
      simp at h
      rw [subQuads_cons_none f hm, ih h]

/-! ## Claim C4: applyAffineFix (fix_scaling) -/

/-- C4 counterexample: Python `int()` truncates toward zero, so for a
negative factor the rewrite is NOT `floor(x * xFactor) + xOffset`:
with `xFactor = -0.5, xOffset = 5` the coordinate 3 becomes
`int(-1.5) + 5 = 4`, while the claim's floor formula gives
`⌊-1.5⌋ + 5 = 3`. -/
theorem claim_C4_counterexample :
    fix_scaling (-(1 / 2) : ℚ) 1 5 0 "<loc_3><loc_0><loc_0><loc_0>" =
      "<loc_4><loc_0><loc_5><loc_0>" ∧
    (max 0 (⌊(3 : ℚ) * (-(1 / 2) : ℚ)⌋ + 5)).toNat = 3 ∧
    ("<loc_4><loc_0><loc_5><loc_0>" : String) ≠ "<loc_3><loc_0><loc_5><loc_0>" := by
  have hceil : pyInt ((3 : ℚ) * (-(1 / 2))) = -1 := by
    rw [show ((3 : ℚ) * (-(1 / 2))) = -(3 / 2) by norm_num]
    rw [pyInt, if_pos (by norm_num), Int.ceil_neg]
    norm_num
  have hfloor : (max 0 (⌊(3 : ℚ) * (-(1 / 2) : ℚ)⌋ + 5)).toNat = 3 := by
    rw [show ((3 : ℚ) * (-(1 / 2) : ℚ)) = -(3 / 2) by norm_num, Int.floor_neg,
      show ⌈(3 / 2 : ℚ)⌉ = 2 by rw [Int.ceil_eq_iff]; norm_num]
    decide
  refine ⟨?_, hfloor, by decide⟩
  have h1 : ("<loc_3><loc_0><loc_0><loc_0>" : String).data
      = quadTag 3 0 0 0 ++ ([] : List Char) := by decide
  have e1 : clampScaled 3 (-(1 / 2) : ℚ) 5 = 4 := by
    unfold clampScaled
    push_cast
    rw [hceil]
    decide
  have e2 : clampScaled 0 (1 : ℚ) 0 = 0 := by
    unfold clampScaled
    push_cast
    rw [show pyInt ((0 : ℚ) * 1) = 0 by norm_num [pyInt]]
    decide
  have e3 : clampScaled 0 (-(1 / 2) : ℚ) 5 = 5 := by
    unfold clampScaled
    push_cast
    rw [show pyInt ((0 : ℚ) * (-(1 / 2))) = 0 by norm_num [pyInt]]
    decide
  unfold fix_scaling
  rw [show subQuads (applyScalingRepl (-(1 / 2) : ℚ) 1 5 0)
        ("<loc_3><loc_0><loc_0><loc_0>" : String).data
      = applyScalingRepl (-(1 / 2) : ℚ) 1 5 0 (3, 0, 0, 0) ++ subQuads _ [] by
    rw [h1, subQuads_quad]]
  simp only [applyScalingRepl, e1, e2, e3]
  decide

/-- C4 amended: `fix_scaling` rewrites each location quadruple to
`x' = int(x * xFactor) + xOffset` clamped to `≥ 0` (`int` truncating toward
zero, which equals the claim's `floor` whenever the factor is non-negative)
and preserves every byte outside the matched quadruples.  The prefix may be
arbitrary text — markup tags included — under the exact leftmost-match
condition of `re.sub`: no quadruple match starts at any position of the
prefix in context.  Iterating the equation peels an arbitrary text's
matches left to right (split at the leftmost match, whose earlier positions
all fail by minimality, rewrite it, recurse on the remainder), and a text
with no quadruple at all is left entirely unchanged (last conjunct). -/
theorem claim_C4_amended (pre post : String) (a b c d : ℕ) (xf yf : ℚ) (xo yo : ℤ)
    (hpre : ∀ i, i < pre.data.length →
      matchQuad (pre.data.drop i ++ quadTag a b c d ++ post.data) = none) :
    fix_scaling xf yf xo yo ⟨pre.data ++ quadTag a b c d ++ post.data⟩ =
      ⟨pre.data ++ applyScalingRepl xf yf xo yo (a, b, c, d) ++
        (fix_scaling xf yf xo yo post).data⟩ ∧
    (0 ≤ xf → ∀ x : ℕ, clampScaled x xf xo = (max 0 (⌊(x : ℚ) * xf⌋ + xo)).toNat) ∧
    (0 ≤ yf → ∀ y : ℕ, clampScaled y yf yo = (max 0 (⌊(y : ℚ) * yf⌋ + yo)).toNat) ∧
    (∀ s : String, hasQuad s.data = false → fix_scaling xf yf xo yo s = s) := by
  refine ⟨?_, ?_, ?_, ?_⟩
  · unfold fix_scaling
    congr 1
    show subQuads _ (pre.data ++ quadTag a b c d ++ post.data) = _
    rw [List.append_assoc,
      subQuads_none_ctx _ _ _ (fun i hi => by
        rw [← List.append_assoc]; exact hpre i hi),
      subQuads_quad]
    simp [List.append_assoc]
  · intro hxf x
    unfold clampScaled
    rw [pyInt_of_nonneg (mul_nonneg (by positivity) hxf)]
  · intro hyf y
    unfold clampScaled
    rw [pyInt_of_nonneg (mul_nonneg (by positivity) hyf)]
  · intro s hs
    unfold fix_scaling
    rw [subQuads_id_of_no_quad _ _ hs]

set_option maxRecDepth 10000 in
set_option synthInstance.maxSize 2000 in
/-- C4 witness: the spec's concrete scenario, derived from the amended
theorem: factors `0.5`, offsets `0` halve all four coordinates — both for
the bare quadruple and for the quadruple embedded in DocTags markup
(`<doctag><text>...</text></doctag>`), whose surrounding bytes survive
unchanged. -/
theorem claim_C4_witness :
    fix_scaling (1 / 2) (1 / 2) 0 0 "<loc_100><loc_100><loc_200><loc_200>" =
      "<loc_50><loc_50><loc_100><loc_100>" ∧
    fix_scaling (1 / 2) (1 / 2) 0 0
        "<doctag><text><loc_100><loc_100><loc_200><loc_200>Hello</text></doctag>" =
      "<doctag><text><loc_50><loc_50><loc_100><loc_100>Hello</text></doctag>" := by
  have e1 : clampScaled 100 ((1 : ℚ) / 2) 0 = 50 := by
    unfold clampScaled
    push_cast
    rw [show pyInt ((100 : ℚ) * (1 / 2)) = 50 by norm_num [pyInt]]
    decide
  have e2 : clampScaled 200 ((1 : ℚ) / 2) 0 = 100 := by
    unfold clampScaled
    push_cast
    rw [show pyInt ((200 : ℚ) * (1 / 2)) = 100 by norm_num [pyInt]]
    decide
  constructor
  · have h := (claim_C4_amended "" "" 100 100 200 200 (1 / 2) (1 / 2) 0 0
      (by intro i hi; simp at hi)).1
    have hin : ("<loc_100><loc_100><loc_200><loc_200>" : String)
        = (⟨("" : String).data ++ quadTag 100 100 200 200 ++ ("" : String).data⟩ : String) := by
      decide
    rw [hin, h]
    simp only [applyScalingRepl, e1, e2]
    decide
  · have h := (claim_C4_amended "<doctag><text>" "Hello</text></doctag>"
      100 100 200 200 (1 / 2) (1 / 2) 0 0 (by decide)).1
    have hin : ("<doctag><text><loc_100><loc_100><loc_200><loc_200>Hello</text></doctag>" : String)
        = (⟨("<doctag><text>" : String).data ++ quadTag 100 100 200 200 ++
            ("Hello</text></doctag>" : String).data⟩ : String) := by
      decide
    have hpost : fix_scaling (1 / 2) (1 / 2) 0 0 "Hello</text></doctag>"
        = "Hello</text></doctag>" :=
      (claim_C4_amended "" "" 0 0 0 0 (1 / 2) (1 / 2) 0 0
        (by intro i hi; simp at hi)).2.2.2 "Hello</text></doctag>" (by decide)
    rw [hin, h, hpost]
    simp only [applyScalingRepl, e1, e2]
    decide

/-! ## Claim C6: extraction skip policy -/

/-- C6 counterexample: a zone with raw `x1 > x2` CAN contribute a crop.
The validity check runs after margin expansion: raw box `(10,0,5,20)` with
`margin = 10` on a 100×100 raster expands to `(0,0,15,30)`, which passes
every check and is cropped. -/
theorem claim_C6_counterexample :
    (⟨"picture", 10, 0, 5, 20, ""⟩ : Zone).x2 < (⟨"picture", 10, 0, 5, 20, ""⟩ : Zone).x1 ∧
    extract_and_save_pictures 100 100 [⟨"picture", 10, 0, 5, 20, ""⟩] 10 =
      [(⟨"picture", 10, 0, 5, 20, ""⟩, (0, 0, 15, 30))] :=
  ⟨by decide, by decide⟩

/-- C6 amended: with a non-positive margin (in particular the default
`margin = 0`), a zone whose raw box has `x1 > x2` never contributes a crop
to the output; with a positive margin the expanded box can become valid
again and the zone is cropped. -/
theorem claim_C6_amended (image_width image_height : ℕ) (pictures : List Zone)
    (margin : ℤ) (p : Zone) (hm : margin ≤ 0) (hp : p.x2 < p.x1) :
    ∀ pr ∈ extract_and_save_pictures image_width image_height pictures margin,
      pr.1 ≠ p := by
  intro pr hpr he
  simp only [extract_and_save_pictures, List.mem_filterMap] at hpr
  obtain ⟨q, _hq, hqe⟩ := hpr
  split at hqe
  · exact Option.noConfusion hqe
  · rename_i hcond
    push_neg at hcond
    obtain ⟨hlt, -⟩ := hcond
    simp only [Option.some.injEq] at hqe
    subst hqe
    simp only at he
    subst he
    have e1 : q.x1 ≤ max 0 (q.x1 - margin) :=
      le_trans (by omega) (le_max_right 0 (q.x1 - margin))
    have e2 : min (image_width : ℤ) (q.x2 + margin) ≤ q.x2 :=
      le_trans (min_le_right _ _) (by omega)
    omega

/-- C6 witness: the amended statement at margin 0 — the degenerate zone is
not in the output. -/
theorem claim_C6_witness :
    ((⟨"picture", 10, 0, 5, 20, ""⟩ : Zone), ((10 : ℤ), (0 : ℤ), (5 : ℤ), (20 : ℤ))) ∉
      extract_and_save_pictures 100 100 [⟨"picture", 10, 0, 5, 20, ""⟩] 0 :=
  fun h =>
    claim_C6_amended 100 100 [⟨"picture", 10, 0, 5, 20, ""⟩] 0
      ⟨"picture", 10, 0, 5, 20, ""⟩ (by decide) (by decide) _ h rfl

/-! ## Claim C8: reconciliation and input mutation -/

/-- C8 counterexample: the heuristic branch of `visualizer.py`
`process_page` writes the scaled coordinates back into the input zone dicts
in place.  With one zone `(100,100,2000,2000)` on a 1000×1000 page, the
computed scales are `(0.5, 0.5)` and after the loop the input zone's cell
holds `(50,50,1000,1000)` — the raw box did not survive. -/
theorem claim_C8_counterexample :
    readS (process_page_scale_heap [⟨"text", 100, 100, 2000, 2000, ""⟩] [0]
        (processPageScales 2000 2000 1000 1000).1
        (processPageScales 2000 2000 1000 1000).2) 0
      ≠ readS [⟨"text", 100, 100, 2000, 2000, ""⟩] 0 := by
  have hs : processPageScales 2000 2000 1000 1000 = (1 / 2, 1 / 2) := by
    norm_num [processPageScales, min_def, max_def, fl_half, fl_inv_two, fl_200]
  have ha : applyScales (1 / 2) (1 / 2) (⟨"text", 100, 100, 2000, 2000, ""⟩ : Zone)
      = ⟨"text", 50, 50, 1000, 1000, ""⟩ := by
    norm_num [applyScales, pyInt, fl_50, fl_1000]
  have hp : process_page_scale_heap [⟨"text", 100, 100, 2000, 2000, ""⟩] [0] (1 / 2) (1 / 2)
      = [⟨"text", 50, 50, 1000, 1000, ""⟩] := by
    unfold process_page_scale_heap
    rw [if_pos (Or.inl (by norm_num))]
    simp only [List.foldl_cons, List.foldl_nil]
    rw [show readS [(⟨"text", 100, 100, 2000, 2000, ""⟩ : Zone)] 0
        = ⟨"text", 100, 100, 2000, 2000, ""⟩ from rfl, ha]
    rfl
  rw [hs]
  show readS (process_page_scale_heap [⟨"text", 100, 100, 2000, 2000, ""⟩] [0]
      (1 / 2) (1 / 2)) 0 ≠ readS [⟨"text", 100, 100, 2000, 2000, ""⟩] 0
  rw [hp]
  decide

/-- C8 amended: the backend reconciliation (`auto_adjust_coordinates` in
`backend/utils.py`, and the identical routine in `picture_extractor.py`)
builds fresh copied zones, so every input zone's raw box is unchanged after
the call; the heuristic branch of `visualizer.py` `process_page`, however,
writes the scaled coordinates back into the input zones in place (see the
counterexample). -/
theorem claim_C8_amended :
    (∀ (σ : List Zone) (addrs : List ℕ) (image_width image_height : ℕ) (a : ℕ),
      a < σ.length →
      readS (auto_adjust_heap σ addrs image_width image_height).1 a = readS σ a) ∧
    readS (process_page_scale_heap [⟨"text", 100, 100, 2000, 2000, ""⟩] [0]
        (1 / 2) (1 / 2)) 0 = ⟨"text", 50, 50, 1000, 1000, ""⟩ := by
  constructor
  · intro σ addrs W H a ha
    unfold auto_adjust_heap readS
    simp only
    rw [List.getD_eq_getElem?_getD, List.getD_eq_getElem?_getD,
      List.getElem?_append_left ha]
  · have ha : applyScales (1 / 2) (1 / 2) (⟨"text", 100, 100, 2000, 2000, ""⟩ : Zone)
        = ⟨"text", 50, 50, 1000, 1000, ""⟩ := by
      norm_num [applyScales, pyInt, fl_50, fl_1000]
    unfold process_page_scale_heap
    rw [if_pos (Or.inl (by norm_num))]
    simp only [List.foldl_cons, List.foldl_nil]
    rw [show readS [(⟨"text", 100, 100, 2000, 2000, ""⟩ : Zone)] 0
        = ⟨"text", 100, 100, 2000, 2000, ""⟩ from rfl, ha]
    rfl

/-- C8 witness: the no-mutation half at a concrete store — reconciling the
single parsed zone leaves its cell (address 0) unchanged. -/
theorem claim_C8_witness :
    readS (auto_adjust_heap [⟨"text", 10, 10, 100, 50, "Hello"⟩] [0] 1000 1000).1 0
      = readS [⟨"text", 10, 10, 100, 50, "Hello"⟩] 0 :=
  claim_C8_amended.1 [⟨"text", 10, 10, 100, 50, "Hello"⟩] [0] 1000 1000 0 (by decide)

/-! ## Decidability of parse results and the wrapper characterization -/

instance exceptDecEq {ε α : Type} [DecidableEq ε] [DecidableEq α] :
    DecidableEq (Except ε α) := fun x y =>
  match x, y with
  | .ok a, .ok b =>
    if h : a = b then isTrue (by rw [h]) else isFalse (fun hh => h (by injection hh))
  | .error a, .error b =>
    if h : a = b then isTrue (by rw [h]) else isFalse (fun hh => h (by injection hh))
  | .ok _, .error _ => isFalse fun hh => Except.noConfusion hh
  | .error _, .ok _ => isFalse fun hh => Except.noConfusion hh

theorem splitFirst_eq {pat s a b : List Char} (h : splitFirst pat s = some (a, b)) :
    s = a ++ pat ++ b := by
  induction s generalizing a b with
  | nil =>
    unfold splitFirst at h
    split at h
    · rename_i hp
      simp only [Option.some.injEq, Prod.mk.injEq] at h
      obtain ⟨rfl, rfl⟩ := h
      have hpe : pat = [] := by
        rw [List.isPrefixOf_iff_prefix] at hp
        exact List.prefix_nil.mp hp
      simp [hpe]
    · exact Option.noConfusion h
  | cons c cs ih =>
    unfold splitFirst at h
    split at h
    · rename_i hp
      rw [List.isPrefixOf_iff_prefix] at hp
      obtain ⟨t, ht⟩ := hp
      simp only [Option.some.injEq, Prod.mk.injEq] at h
      obtain ⟨rfl, rfl⟩ := h
      simp only [List.nil_append]
      conv_lhs => rw [← ht]
      rw [← ht, List.drop_left]
    · rename_i hp
      rw [Option.map_eq_some'] at h
      obtain ⟨⟨a1, b1⟩, hsf, hab⟩ := h
      simp only [Prod.mk.injEq] at hab
      obtain ⟨ha, hb⟩ := hab
      subst ha
      subst hb
      have := ih hsf
      simp [this]

theorem splitFirst_none {pat s : List Char} (h : splitFirst pat s = none) :
    ∀ a b, s ≠ a ++ pat ++ b := by
  induction s with
  | nil =>
    intro a b he
    unfold splitFirst at h
    split at h
    · exact Option.noConfusion h
    · rename_i hp
      have hnil : a = [] ∧ pat = [] ∧ b = [] := by
        have := he.symm
        simp [List.append_eq_nil] at this
        tauto
      exact hp (by simp [hnil.2.1, List.isPrefixOf_iff_prefix])
  | cons c cs ih =>
    intro a b he
    unfold splitFirst at h
    split at h
    · exact Option.noConfusion h
    · rename_i hp
      cases a with
      | nil =>
        simp only [List.nil_append] at he
        exact hp (by
          rw [List.isPrefixOf_iff_prefix]
          exact ⟨b, he.symm⟩)
      | cons a0 as =>
        have hrec : splitFirst pat cs = none := by
          cases hsf : splitFirst pat cs with
          | none => rfl
          | some v => rw [hsf] at h; simp at h
        simp only [List.cons_append, List.cons.injEq] at he
        exact ih hrec as b he.2

theorem splitFirst_min {pat s a₁ r : List Char} (h : splitFirst pat s = some (a₁, r)) :
    ∀ a b, s = a ++ pat ++ b → a₁.length ≤ a.length := by
  induction s generalizing a₁ r with
  | nil =>
    intro a b _
    have h2 := splitFirst_eq h
    have : a₁ = [] := by
      have := h2.symm
      simp [List.append_eq_nil] at this
      tauto
    simp [this]
  | cons c cs ih =>
    intro a b he
    unfold splitFirst at h
    split at h
    · simp only [Option.some.injEq, Prod.mk.injEq] at h
      obtain ⟨rfl, -⟩ := h
      simp
    · rename_i hp
      cases a with
      | nil =>
        exfalso
        simp only [List.nil_append] at he
        exact hp (by
          rw [List.isPrefixOf_iff_prefix]
          exact ⟨b, he.symm⟩)
      | cons a0 as =>
        rw [Option.map_eq_some'] at h
        obtain ⟨⟨a2, b2⟩, hsf, hab⟩ := h
        simp only [Prod.mk.injEq] at hab
        obtain ⟨ha, -⟩ := hab
        subst ha
        simp only [List.cons_append, List.cons.injEq] at he
        have := ih hsf as b he.2
        simp
        omega

theorem findWrapper_some_iff (s : List Char) :
    (∃ w, findWrapper s = some w) ↔ hasWrapper s := by
  constructor
  · rintro ⟨w, hw⟩
    unfold findWrapper at hw
    split at hw
    · exact Option.noConfusion hw
    · rename_i p1 r hopen
      split at hw
      · exact Option.noConfusion hw
      · rename_i b2 c2 hclose
        have h1 := splitFirst_eq hopen
        have h2 := splitFirst_eq hclose
        exact ⟨p1, b2, c2, by rw [h1, h2]; simp [List.append_assoc]⟩
  · rintro ⟨a, b, c, rfl⟩
    obtain ⟨a1, r, hsf⟩ : ∃ a1 r,
        splitFirst ("<doctag>" : String).data
          (a ++ ("<doctag>" : String).data ++ b ++ ("</doctag>" : String).data ++ c)
          = some (a1, r) := by
      cases hx : splitFirst ("<doctag>" : String).data
          (a ++ ("<doctag>" : String).data ++ b ++ ("</doctag>" : String).data ++ c) with
      | some v =>
        obtain ⟨v1, v2⟩ := v
        exact ⟨v1, v2, rfl⟩
      | none =>
        exact absurd (by simp [List.append_assoc])
          (splitFirst_none hx a (b ++ ("</doctag>" : String).data ++ c))
    have heq := splitFirst_eq hsf
    have hmin := splitFirst_min hsf a (b ++ ("</doctag>" : String).data ++ c)
      (by simp [List.append_assoc])
    have hsufX : (("<doctag>" : String).data ++
        (b ++ ("</doctag>" : String).data ++ c)) <:+
        (a ++ ("<doctag>" : String).data ++ b ++ ("</doctag>" : String).data ++ c) :=
      ⟨a, by simp [List.append_assoc]⟩
    have hsufY : (("<doctag>" : String).data ++ r) <:+
        (a ++ ("<doctag>" : String).data ++ b ++ ("</doctag>" : String).data ++ c) :=
      ⟨a1, by rw [heq]; simp [List.append_assoc]⟩
    have hlen : (("<doctag>" : String).data ++
        (b ++ ("</doctag>" : String).data ++ c)).length ≤
        (("<doctag>" : String).data ++ r).length := by
      have l1 := congrArg List.length heq
      simp only [List.length_append] at l1 ⊢
      omega
    obtain ⟨t, ht⟩ := List.suffix_of_suffix_length_le hsufX hsufY hlen
    have hr : r = ((t ++ ("<doctag>" : String).data ++ b).drop
        ("<doctag>" : String).data.length) ++ ("</doctag>" : String).data ++ c := by
      have h2 : (t ++ ("<doctag>" : String).data ++ b) ++
          (("</doctag>" : String).data ++ c) = ("<doctag>" : String).data ++ r := by
        rw [← ht]
        simp [List.append_assoc]
      have h3 := congrArg (List.drop ("<doctag>" : String).data.length) h2
      rw [List.drop_left] at h3
      rw [List.drop_append_of_le_length (by simp [List.length_append]; omega)] at h3
      rw [← h3]
      simp [List.append_assoc]
    obtain ⟨b1, c1, hc⟩ : ∃ b1 c1,
        splitFirst ("</doctag>" : String).data r = some (b1, c1) := by
      cases hx : splitFirst ("</doctag>" : String).data r with
      | some v =>
        obtain ⟨v1, v2⟩ := v
        exact ⟨v1, v2, rfl⟩
      | none => exact absurd hr (splitFirst_none hx _ c)
    refine ⟨b1, ?_⟩
    unfold findWrapper
    rw [hsf]
    show (match splitFirst ("</doctag>" : String).data r with
      | none => none
      | some (b, _) => some b) = some b1
    rw [hc]

set_option maxRecDepth 10000 in
theorem parse_ok_empty_doc : parse_doctags "<doctag></doctag>" = .ok [] := by decide

/-! ## Claim C5: parser failure semantics -/

/-- C5: the backend parser fails with the empty-document error exactly on
blank input, with the malformed-document error exactly on non-blank input
without a `<doctag>…</doctag>` wrapper, and succeeds whenever a wrapper is
present — in particular a wrapper with zero zones yields `.ok []`, not an
error. -/
theorem claim_C5 (s : String) :
    (parse_doctags s = .error .emptyDocument ↔ isBlank s = true) ∧
    (parse_doctags s = .error .malformedDocument ↔
      (isBlank s = false ∧ ¬ hasWrapper s.data)) ∧
    (isBlank s = false → hasWrapper s.data → ∃ zs, parse_doctags s = .ok zs) ∧
    parse_doctags "<doctag></doctag>" = .ok [] := by
  have hw := findWrapper_some_iff s.data
  refine ⟨?_, ?_, ?_, parse_ok_empty_doc⟩
  · unfold parse_doctags
    by_cases hb : isBlank s
    · simp [hb]
    · simp only [if_neg hb]
      cases hfw : findWrapper s.data <;>
        simp [show isBlank s = false from by simpa using hb]
  · unfold parse_doctags
    by_cases hb : isBlank s
    · simp [hb]
    · simp only [if_neg hb]
      cases hfw : findWrapper s.data with
      | none =>
        simp only [show isBlank s = false from by simpa using hb, true_and]
        have hnw : ¬ hasWrapper s.data := by
          intro hwr
          obtain ⟨w, hww⟩ := hw.mpr hwr
          rw [hfw] at hww
          exact Option.noConfusion hww
        simp [hnw]
      | some content =>
        simp only [show isBlank s = false from by simpa using hb, true_and]
        have hwr := hw.mp ⟨content, hfw⟩
        simp [hwr]
  · intro hb hwr
    obtain ⟨w, hfw⟩ := hw.mpr hwr
    unfold parse_doctags
    rw [if_neg (by simp [hb]), hfw]
    exact ⟨_, rfl⟩

set_option maxRecDepth 10000 in
/-- C5 witness: the blank-page document parses to `.ok []`, and a concrete
well-formed document with one zone parses successfully. -/
theorem claim_C5_witness :
    parse_doctags "<doctag></doctag>" = .ok ([] : List Zone) ∧
    (∃ zs, parse_doctags "<doctag><text><loc_1><loc_2><loc_3><loc_4>Hi</text></doctag>"
      = .ok zs) := by
  have h := claim_C5 "<doctag><text><loc_1><loc_2><loc_3><loc_4>Hi</text></doctag>"
  refine ⟨h.2.2.2, h.2.2.1 (by decide) ?_⟩
  exact ⟨[], ("<text><loc_1><loc_2><loc_3><loc_4>Hi</text>" : String).data, [], by decide⟩

/-! ## Claim C7: parser output order -/

set_option maxRecDepth 10000 in
/-- C7 counterexample: in the input document the `text` zone A (box
`(10,100,20,110)`) opens before the `text` zone B (box `(10,10,20,20)`),
yet the backend `parse_doctags` returns `[B, A]` — it sorts by `(y1, x1)`
inside the parse operation itself, so parse does not return raw document
order. -/
theorem claim_C7_counterexample :
    parse_doctags "<doctag><text><loc_10><loc_100><loc_20><loc_110>A</text><text><loc_10><loc_10><loc_20><loc_20>B</text></doctag>"
      = .ok [⟨"text", 10, 10, 20, 20, "B"⟩, ⟨"text", 10, 100, 20, 110, "A"⟩] ∧
    ([⟨"text", 10, 10, 20, 20, "B"⟩, ⟨"text", 10, 100, 20, 110, "A"⟩] : List Zone)
      ≠ [⟨"text", 10, 100, 20, 110, "A"⟩, ⟨"text", 10, 10, 20, 20, "B"⟩] :=
  ⟨by decide, by decide⟩

set_option maxRecDepth 10000 in
/-- C7 amended: the backend parser sorts its zone list by `(y1, x1)` inside
`parse_doctags` itself before returning (the output is always
`zoneLe`-sorted), while the root visualizer's parser returns zones in raw
document order — on the two-zone document whose opening tags occur in the
order A, B, the root parser returns `[A, B]` and the backend parser
returns the sorted `[B, A]`. -/
theorem claim_C7_amended :
    (∀ content : List Char, (extractZonesB content).Sorted zoneLe) ∧
    parse_doctags_viz "<doctag><text><loc_10><loc_100><loc_20><loc_110>A</text><text><loc_10><loc_10><loc_20><loc_20>B</text></doctag>"
      = .ok [⟨"text", 10, 100, 20, 110, "A"⟩, ⟨"text", 10, 10, 20, 20, "B"⟩] ∧
    parse_doctags "<doctag><text><loc_10><loc_100><loc_20><loc_110>A</text><text><loc_10><loc_10><loc_20><loc_20>B</text></doctag>"
      = .ok [⟨"text", 10, 10, 20, 20, "B"⟩, ⟨"text", 10, 100, 20, 110, "A"⟩] := by
  refine ⟨?_, by decide, by decide⟩
  intro content
  unfold extractZonesB sortZones
  exact List.sorted_insertionSort zoneLe _

/-! ## Claim C9: duplicate suppression in the catch-all scan -/

theorem genDedup_spec :
    ∀ (cands : List (List Char × (ℕ × ℕ × ℕ × ℕ) × List Char))
      (zones : List Zone) (found : List String),
      (∀ w ∈ zones, keyOf w ∈ found) →
      ∃ extra, genDedup zones found cands = zones ++ extra ∧
        (∀ z ∈ extra, keyOf z ∉ found) ∧
        extra.Pairwise (fun z w => keyOf z ≠ keyOf w) := by
  intro cands
  induction cands with
  | nil =>
    intro zones found _
    exact ⟨[], by simp [genDedup], by simp, by simp⟩
  | cons m rest ih =>
    intro zones found h
    by_cases hloc : startsWithLoc m.1 = true
    · rw [show genDedup zones found (m :: rest) = genDedup zones found rest from by
        conv_lhs => unfold genDedup
        rw [if_pos hloc]]
      exact ih zones found h
    · by_cases hk : keyOf (mkGenZone m) ∈ found
      · rw [show genDedup zones found (m :: rest) = genDedup zones found rest from by
          conv_lhs => unfold genDedup
          rw [if_neg hloc, if_pos hk]]
        exact ih zones found h
      · rw [show genDedup zones found (m :: rest)
            = genDedup (zones ++ [mkGenZone m]) (keyOf (mkGenZone m) :: found) rest from by
          conv_lhs => unfold genDedup
          rw [if_neg hloc, if_neg hk]]
        obtain ⟨extra, he, hnf, hpw⟩ :=
          ih (zones ++ [mkGenZone m]) (keyOf (mkGenZone m) :: found) (by
            intro w hw
            rcases List.mem_append.mp hw with hw | hw
            · exact List.mem_cons_of_mem _ (h w hw)
            · simp at hw
              subst hw
              exact List.mem_cons_self _ _)
        refine ⟨mkGenZone m :: extra, ?_, ?_, ?_⟩
        · rw [he]
          simp
        · intro z hz
          rcases List.mem_cons.mp hz with rfl | hz
          · exact hk
          · intro hzf
            exact hnf z hz (List.mem_cons_of_mem _ hzf)
        · refine List.Pairwise.cons ?_ hpw
          intro w hw hkey
          exact hnf w hw (hkey ▸ List.mem_cons_self _ _)

/-- C9: the catch-all scan appends to the already-collected zones only
matches whose key differs from the key of every zone collected so far, so
it never introduces a zone whose `(kind, x1, y1)` duplicates an existing
one (and the appended zones are mutually distinct on that key as well). -/
theorem claim_C9 (zones : List Zone)
    (cands : List (List Char × (ℕ × ℕ × ℕ × ℕ) × List Char)) :
    ∃ extra, genDedup zones (zones.map keyOf) cands = zones ++ extra ∧
      (∀ z ∈ extra, ∀ w ∈ zones, ¬(w.kind = z.kind ∧ w.x1 = z.x1 ∧ w.y1 = z.y1)) ∧
      extra.Pairwise (fun z w => ¬(z.kind = w.kind ∧ z.x1 = w.x1 ∧ z.y1 = w.y1)) := by
  obtain ⟨extra, he, hnf, hpw⟩ := genDedup_spec cands zones (zones.map keyOf)
    (fun w hw => List.mem_map_of_mem keyOf hw)
  refine ⟨extra, he, ?_, ?_⟩
  · rintro z hz w hw ⟨h1, h2, h3⟩
    apply hnf z hz
    have hkey : keyOf z = keyOf w := by
      unfold keyOf
      rw [h1, h2, h3]
    rw [hkey]
    exact List.mem_map_of_mem keyOf hw
  · refine hpw.imp ?_
    rintro a b hne ⟨h1, h2, h3⟩
    exact hne (by unfold keyOf; rw [h1, h2, h3])

/-- C9 witness: one collected zone, one catch-all candidate duplicating its
key (suppressed) and one fresh candidate (appended). -/
theorem claim_C9_witness :
    genDedup [⟨"text", 10, 100, 20, 110, "A"⟩]
        ([⟨"text", 10, 100, 20, 110, "A"⟩].map keyOf)
        [(("text" : String).data, ((10, 100, 20, 110) : ℕ × ℕ × ℕ × ℕ), ("A" : String).data),
         (("picture" : String).data, ((5, 6, 7, 8) : ℕ × ℕ × ℕ × ℕ), ([] : List Char))]
      = [⟨"text", 10, 100, 20, 110, "A"⟩, ⟨"picture", 5, 6, 7, 8, ""⟩] ∧
    (∃ extra,
      genDedup [⟨"text", 10, 100, 20, 110, "A"⟩]
          ([⟨"text", 10, 100, 20, 110, "A"⟩].map keyOf)
          [(("text" : String).data, ((10, 100, 20, 110) : ℕ × ℕ × ℕ × ℕ), ("A" : String).data),
           (("picture" : String).data, ((5, 6, 7, 8) : ℕ × ℕ × ℕ × ℕ), ([] : List Char))]
        = [⟨"text", 10, 100, 20, 110, "A"⟩] ++ extra ∧
      (∀ z ∈ extra, ∀ w ∈ [(⟨"text", 10, 100, 20, 110, "A"⟩ : Zone)],
        ¬(w.kind = z.kind ∧ w.x1 = z.x1 ∧ w.y1 = z.y1)) ∧
      extra.Pairwise (fun z w => ¬(z.kind = w.kind ∧ z.x1 = w.x1 ∧ z.y1 = w.y1))) :=
  ⟨by decide, claim_C9 _ _⟩
